import Mathlib

/-!
Verification of the VSL video-generation service.

Shallow embedding of the relevant program logic:
* `src/server/services/videoProcessor.js` — easing math, overlay geometry,
  background durations, the `generateVSL` pipeline (filesystem effects);
* `src/unnamed/part_001`, `src/unnamed/part_002` — earlier snapshots of the
  video processor (alternate overlay positioning and the Loom-style stepped
  scroll formula);
* `src/server/routes/videos.js` — job queue worker loop, status upserts on
  the `generated_videos` table, and the status endpoint;
* `src/server/services/cleanup.js` — retention sweeper.

Machine reals of the JS source are modelled as `ℚ` (all the constants involved
are exact decimals), paths as segment lists, and the database tables as lists
of rows.
-/

namespace VSL

/-! ## Easing math

`videoProcessor.js` lines 97-121 (`createScrollingBackground`): the ffmpeg
easing expression is
`(min(t,D)/D)*(min(t,D)/D)*(3-2*(min(t,D)/D))` — cubic smoothstep of the
clamped normalized time. -/

/-- Cubic smoothstep `p^2 * (3 - 2p)`, the easing polynomial appearing in the
ffmpeg filter expression of `createScrollingBackground`. -/
def ease (p : ℚ) : ℚ := p ^ 2 * (3 - 2 * p)

/-- Scroll progress of the smoothstep variant
(`videoProcessor.js:103`): normalized clamped time fed through `ease`. -/
def smoothProgress (D t : ℚ) : ℚ := ease (min t D / D)

theorem ease_zero : ease 0 = 0 := by norm_num [ease]

theorem ease_one : ease 1 = 1 := by norm_num [ease]

theorem ease_nonneg {p : ℚ} (h0 : 0 ≤ p) (h1 : p ≤ 1) : 0 ≤ ease p := by
  unfold ease; nlinarith

theorem ease_le_one {p : ℚ} (h0 : 0 ≤ p) (h1 : p ≤ 1) : ease p ≤ 1 := by
  unfold ease; nlinarith [sq_nonneg (1 - p), sq_nonneg p]

theorem ease_mono {a b : ℚ} (ha : 0 ≤ a) (hab : a ≤ b) (hb : b ≤ 1) :
    ease a ≤ ease b := by
  have ha1 : a ≤ 1 := hab.trans hb
  have hb0 : 0 ≤ b := ha.trans hab
  unfold ease
  nlinarith [mul_nonneg (sub_nonneg.mpr hab) (mul_nonneg ha (sub_nonneg.mpr ha1)),
             mul_nonneg (sub_nonneg.mpr hab) (mul_nonneg hb0 (sub_nonneg.mpr hb)),
             mul_nonneg (sub_nonneg.mpr hab) (mul_nonneg ha (sub_nonneg.mpr hb)),
             mul_nonneg (sub_nonneg.mpr hab) (mul_nonneg hb0 (sub_nonneg.mpr ha1))]

/-! ## Loom-style stepped scroll (src/unnamed/part_002, lines 102-154)

Constants from the source: `SCROLL_STEP_DURATION = 2.5`.
`numSteps = Math.max(3, Math.ceil(scrollDuration / SCROLL_STEP_DURATION))`,
`stepDuration = scrollDuration / numSteps`,
`scrollPhase = stepDuration * 0.7`, and the ffmpeg expression
`if(lt(t,D), (floor(t/s) + if(lt(mod(t,s),sp), ease(mod(t,s)/sp), 1))/N, 1)`.
-/

/-- `SCROLL_STEP_DURATION` from `part_002:16`. -/
def SCROLL_STEP_DURATION : ℚ := 5 / 2

/-- `numSteps` of `part_002:110`. -/
def numSteps (D : ℚ) : ℕ := max 3 (Int.toNat ⌈D / SCROLL_STEP_DURATION⌉)

/-- Within-step factor of the stepped formula: smoothstep easing during the
first 70% of the step, then flat 1 (the `if(lt(mod(t,s),sp),...,1)` branch of
`part_002:129-131`). `s` is the step duration, `u = mod(t, s)`. -/
def stepInner (s u : ℚ) : ℚ :=
  if u < s * (7 / 10) then ease (u / (s * (7 / 10))) else 1

/-- The full stepped ("staircase") progress expression of `part_002:125-136`
as a function of elapsed time `t`. -/
def steppedProgress (D t : ℚ) : ℚ :=
  if t < D then
    (((⌊t / (D / (numSteps D : ℚ))⌋ : ℚ)
      + stepInner (D / (numSteps D : ℚ)) (t - D / (numSteps D : ℚ) * ⌊t / (D / (numSteps D : ℚ))⌋))
     / (numSteps D : ℚ))
  else 1

theorem numSteps_pos (D : ℚ) : 0 < numSteps D :=
  lt_of_lt_of_le (by norm_num) (le_max_left 3 _)

theorem stepInner_nonneg {s u : ℚ} (hs : 0 < s) (hu : 0 ≤ u) :
    0 ≤ stepInner s u := by
  unfold stepInner
  split
  · rename_i h
    have hsp : 0 < s * (7 / 10) := by positivity
    exact ease_nonneg (div_nonneg hu hsp.le)
      (le_of_lt ((div_lt_one hsp).mpr h))
  · norm_num

theorem stepInner_le_one {s u : ℚ} (hs : 0 < s) (hu : 0 ≤ u) :
    stepInner s u ≤ 1 := by
  unfold stepInner
  split
  · rename_i h
    have hsp : 0 < s * (7 / 10) := by positivity
    exact ease_le_one (div_nonneg hu hsp.le)
      (le_of_lt ((div_lt_one hsp).mpr h))
  · norm_num

theorem stepInner_mono {s u v : ℚ} (hs : 0 < s) (hu : 0 ≤ u) (huv : u ≤ v) :
    stepInner s u ≤ stepInner s v := by
  unfold stepInner
  have hsp : 0 < s * (7 / 10) := by positivity
  split
  · rename_i hu2
    split
    · rename_i hv2
      exact ease_mono (div_nonneg hu hsp.le)
        ((div_le_div_iff_of_pos_right hsp).mpr huv)
        (le_of_lt ((div_lt_one hsp).mpr hv2))
    · exact ease_le_one (div_nonneg hu hsp.le)
        (le_of_lt ((div_lt_one hsp).mpr hu2))
  · split
    · rename_i hu2 hv2
      exact absurd (lt_of_le_of_lt huv hv2) hu2
    · exact le_refl 1

theorem floorMod_nonneg {s t : ℚ} (hs : 0 < s) :
    0 ≤ t - s * (⌊t / s⌋ : ℚ) := by
  have h : (⌊t / s⌋ : ℚ) * s ≤ t := (le_div_iff hs).mp (Int.floor_le (t / s))
  linarith

theorem floorMod_lt {s t : ℚ} (hs : 0 < s) :
    t - s * (⌊t / s⌋ : ℚ) < s := by
  have h : t < ((⌊t / s⌋ : ℚ) + 1) * s := (div_lt_iff hs).mp (Int.lt_floor_add_one (t / s))
  nlinarith

theorem stepDur_pos {D : ℚ} (hD : 0 < D) : 0 < D / (numSteps D : ℚ) :=
  div_pos hD (by exact_mod_cast numSteps_pos D)

theorem steppedProgress_le_one {D t : ℚ} (hD : 0 < D) (ht : 0 ≤ t) :
    steppedProgress D t ≤ 1 := by
  unfold steppedProgress
  split
  · rename_i hlt
    have hNpos : (0 : ℚ) < (numSteps D : ℚ) := by exact_mod_cast numSteps_pos D
    have hspos : 0 < D / (numSteps D : ℚ) := stepDur_pos hD
    set s : ℚ := D / (numSteps D : ℚ) with hs_def
    have hk0 : (0 : ℚ) ≤ (⌊t / s⌋ : ℚ) := by
      exact_mod_cast Int.floor_nonneg.mpr (div_nonneg ht hspos.le)
    have hkN : (⌊t / s⌋ : ℚ) + 1 ≤ (numSteps D : ℚ) := by
      have hts : t / s < ((numSteps D : ℤ) : ℚ) := by
        rw [div_lt_iff hspos]
        have hD_eq : ((numSteps D : ℤ) : ℚ) * s = D := by
          push_cast
          rw [hs_def]
          field_simp
        rw [hD_eq]; exact hlt
      have : ⌊t / s⌋ + 1 ≤ (numSteps D : ℤ) := Int.add_one_le_iff.mpr (Int.floor_lt.mpr hts)
      exact_mod_cast this
    have hu0 : 0 ≤ t - s * (⌊t / s⌋ : ℚ) := floorMod_nonneg hspos
    have hinner : stepInner s (t - s * (⌊t / s⌋ : ℚ)) ≤ 1 := stepInner_le_one hspos hu0
    rw [div_le_one hNpos]
    linarith
  · exact le_refl 1

theorem steppedProgress_eq_one {D t : ℚ} (ht : D ≤ t) : steppedProgress D t = 1 := by
  unfold steppedProgress
  rw [if_neg (not_lt.mpr ht)]

theorem steppedProgress_mono {D t₁ t₂ : ℚ} (hD : 0 < D) (h1 : 0 ≤ t₁) (h12 : t₁ ≤ t₂) :
    steppedProgress D t₁ ≤ steppedProgress D t₂ := by
  by_cases h2 : t₂ < D
  · have h1D : t₁ < D := lt_of_le_of_lt h12 h2
    have hNpos : (0 : ℚ) < (numSteps D : ℚ) := by exact_mod_cast numSteps_pos D
    have hspos : 0 < D / (numSteps D : ℚ) := stepDur_pos hD
    unfold steppedProgress
    rw [if_pos h1D, if_pos h2]
    set s : ℚ := D / (numSteps D : ℚ) with hs_def
    have hfl : ⌊t₁ / s⌋ ≤ ⌊t₂ / s⌋ :=
      Int.floor_le_floor ((div_le_div_right hspos).mpr h12)
    have hu1 : 0 ≤ t₁ - s * (⌊t₁ / s⌋ : ℚ) := floorMod_nonneg hspos
    have hu2 : 0 ≤ t₂ - s * (⌊t₂ / s⌋ : ℚ) := floorMod_nonneg hspos
    rcases eq_or_lt_of_le hfl with heq | hlt
    · rw [← heq]
      have hmono : stepInner s (t₁ - s * (⌊t₁ / s⌋ : ℚ)) ≤ stepInner s (t₂ - s * (⌊t₁ / s⌋ : ℚ)) :=
        stepInner_mono hspos hu1 (by linarith)
      exact (div_le_div_iff_of_pos_right hNpos).mpr (by linarith)
    · have hstep : (⌊t₁ / s⌋ : ℚ) + 1 ≤ (⌊t₂ / s⌋ : ℚ) := by
        exact_mod_cast Int.add_one_le_iff.mpr hlt
      have hi1 : stepInner s (t₁ - s * (⌊t₁ / s⌋ : ℚ)) ≤ 1 := stepInner_le_one hspos hu1
      have hi2 : 0 ≤ stepInner s (t₂ - s * (⌊t₂ / s⌋ : ℚ)) := stepInner_nonneg hspos hu2
      exact (div_le_div_iff_of_pos_right hNpos).mpr (by linarith)
  · rw [steppedProgress_eq_one (not_lt.mp h2)]
    exact steppedProgress_le_one hD h1

/-- Shape of the staircase within step `k`: at offset `u` into step `k`
(`0 ≤ u < stepDuration`), the progress equals `(k + stepInner s u) / N`. -/
theorem steppedProgress_step_eq {D : ℚ} (hD : 0 < D) (k : ℕ) (hk : k < numSteps D)
    {u : ℚ} (hu0 : 0 ≤ u) (hus : u < D / (numSteps D : ℚ)) :
    steppedProgress D ((k : ℚ) * (D / (numSteps D : ℚ)) + u)
      = ((k : ℚ) + stepInner (D / (numSteps D : ℚ)) u) / (numSteps D : ℚ) := by
  have hNpos : (0 : ℚ) < (numSteps D : ℚ) := by exact_mod_cast numSteps_pos D
  have hspos : 0 < D / (numSteps D : ℚ) := stepDur_pos hD
  set s : ℚ := D / (numSteps D : ℚ) with hs_def
  have hk1N : (k : ℚ) + 1 ≤ (numSteps D : ℚ) := by exact_mod_cast Nat.succ_le_of_lt hk
  have hNs : (numSteps D : ℚ) * s = D := by rw [hs_def]; field_simp
  have htD : (k : ℚ) * s + u < D := by nlinarith
  have hfloor : ⌊((k : ℚ) * s + u) / s⌋ = (k : ℤ) := by
    rw [Int.floor_eq_iff]
    constructor
    · push_cast
      rw [le_div_iff hspos]
      nlinarith
    · push_cast
      rw [div_lt_iff hspos]
      nlinarith
  unfold steppedProgress
  rw [if_pos htD, hfloor]
  have harg : (k : ℚ) * s + u - s * ((k : ℤ) : ℚ) = u := by push_cast; ring
  rw [harg, ← hs_def]
  norm_cast

/-! ## Overlay geometry (`createVideoWithOverlay`)

Current version: `videoProcessor.js` lines 137-173 — position is computed
from the actual overlay size ("use the actual overlay size for positioning").
Earlier snapshot: `src/unnamed/part_001` lines 120-155 — position is computed
from the fixed 200×200 `bubbleSize` for every style. -/

def VIEWPORT_WIDTH : ℤ := 1280

def VIEWPORT_HEIGHT : ℤ := 720

inductive VideoStyle
  | small_bubble
  | big_bubble
  | full_screen
deriving DecidableEq

inductive VideoPosition
  | bottom_left
  | bottom_right
  | top_left
  | top_right
deriving DecidableEq

/-- `overlaySize` switch of `videoProcessor.js:142-152` (identical in
`part_001:124-134` and `part_002:174-184`): big bubble 400×400, full-screen
starts at the small-bubble size, small bubble 200×200. -/
def overlaySize : VideoStyle → ℤ × ℤ
  | .big_bubble => (400, 400)
  | .full_screen => (200, 200)
  | .small_bubble => (200, 200)

/-- Fixed corner padding (`const padding = 20`). -/
def padding : ℤ := 20

/-- `(posX, posY)` switch of `videoProcessor.js:157-173`: corner position
computed from the style's actual overlay size. -/
def overlayPos (style : VideoStyle) (position : VideoPosition) : ℤ × ℤ :=
  match position with
  | .bottom_right => (VIEWPORT_WIDTH - (overlaySize style).1 - padding,
                      VIEWPORT_HEIGHT - (overlaySize style).2 - padding)
  | .top_left => (padding, padding)
  | .top_right => (VIEWPORT_WIDTH - (overlaySize style).1 - padding, padding)
  | .bottom_left => (padding, VIEWPORT_HEIGHT - (overlaySize style).2 - padding)

/-- `(posX, posY)` switch of the `part_001` snapshot (lines 136-155): the
position is computed from the fixed `bubbleSize = 200×200` for every style,
ignoring the 400×400 `overlaySize` of `big_bubble`. -/
def overlayPosV1 (position : VideoPosition) : ℤ × ℤ :=
  match position with
  | .bottom_right => (VIEWPORT_WIDTH - 200 - padding, VIEWPORT_HEIGHT - 200 - padding)
  | .top_left => (padding, padding)
  | .top_right => (VIEWPORT_WIDTH - 200 - padding, padding)
  | .bottom_left => (padding, VIEWPORT_HEIGHT - 200 - padding)

/-! ## Background durations (`generateVSL`)

`videoProcessor.js` lines 338-360: `scrollDuration = settings.scroll_duration
|| 15`; bubble styles extend the background to
`Math.max(scrollDuration, introVideoDuration + 1)`; full-screen uses the
scroll duration alone. -/

/-- JS `x || d` default for a possibly-absent numeric setting (`0` is falsy). -/
def jsOrDefault (v : Option ℚ) (d : ℚ) : ℚ :=
  match v with
  | none => d
  | some x => if x = 0 then d else x

/-- `settings.video_style || 'small_bubble'` (`videoProcessor.js:342`). -/
def styleOrDefault (v : Option VideoStyle) : VideoStyle := v.getD .small_bubble

/-- `totalBackgroundDuration` computation of `videoProcessor.js:349-358`. -/
def totalBackgroundDuration (style : VideoStyle) (scrollDuration introVideoDuration : ℚ) : ℚ :=
  if style = .small_bubble ∨ style = .big_bubble then
    max scrollDuration (introVideoDuration + 1)
  else
    scrollDuration

/-! ## Claim theorems C4-C7 -/

/-- C4. The claim: for every position and every style, `(posX, posY)` computed
by `createVideoWithOverlay` keeps the overlay fully within the 1280×720
canvas. This holds for the current `videoProcessor.js` (first conjunct, all 12
combinations), but the `part_001` snapshot positions every style with the
fixed 200×200 bubble size, so for `big_bubble` (400×400 overlay) at
`bottom_right` the overlay's right edge lands at 1460 > 1280 (second
conjunct): the snapshot contradicts the claim, and the current code's own
comment ("use the actual overlay size for positioning") marks the fix. -/
theorem overlay_bounds_and_part001_overflow :
    (∀ (st : VideoStyle) (p : VideoPosition),
      0 ≤ (overlayPos st p).1 ∧ 0 ≤ (overlayPos st p).2
      ∧ (overlayPos st p).1 + (overlaySize st).1 ≤ VIEWPORT_WIDTH
      ∧ (overlayPos st p).2 + (overlaySize st).2 ≤ VIEWPORT_HEIGHT)
    ∧ ((overlayPosV1 .bottom_right).1 + (overlaySize .big_bubble).1 = 1460
       ∧ ¬ ((overlayPosV1 .bottom_right).1 + (overlaySize .big_bubble).1 ≤ VIEWPORT_WIDTH)) := by
  constructor
  · intro st p
    cases st <;> cases p <;> decide
  · decide

/-- C5. Stepped ("staircase") scroll of `part_002`: `N = max(3, ⌈D/2.5⌉)`
equal steps; within step `k` the first 70% applies smoothstep easing from
`k/N` up to `(k+1)/N` and the remaining 30% holds flat at `(k+1)/N`; progress
never exceeds 1, is non-decreasing, and equals 1 for all `t ≥ D`. -/
theorem steppedProgress_spec (D : ℚ) (hD : 0 < D) :
    numSteps D = max 3 (Int.toNat ⌈D / SCROLL_STEP_DURATION⌉)
    ∧ (∀ t : ℚ, 0 ≤ t → steppedProgress D t ≤ 1)
    ∧ (∀ t₁ t₂ : ℚ, 0 ≤ t₁ → t₁ ≤ t₂ → steppedProgress D t₁ ≤ steppedProgress D t₂)
    ∧ (∀ t : ℚ, D ≤ t → steppedProgress D t = 1)
    ∧ (∀ k : ℕ, k < numSteps D → ∀ u : ℚ, 0 ≤ u →
        (u < D / (numSteps D : ℚ) * (7 / 10) →
          steppedProgress D ((k : ℚ) * (D / (numSteps D : ℚ)) + u)
            = ((k : ℚ) + ease (u / (D / (numSteps D : ℚ) * (7 / 10)))) / (numSteps D : ℚ))
        ∧ (D / (numSteps D : ℚ) * (7 / 10) ≤ u → u < D / (numSteps D : ℚ) →
          steppedProgress D ((k : ℚ) * (D / (numSteps D : ℚ)) + u)
            = ((k : ℚ) + 1) / (numSteps D : ℚ))) := by
  have hspos : 0 < D / (numSteps D : ℚ) := stepDur_pos hD
  refine ⟨rfl, fun t ht => steppedProgress_le_one hD ht,
    fun t₁ t₂ h1 h12 => steppedProgress_mono hD h1 h12,
    fun t ht => steppedProgress_eq_one ht,
    fun k hk u hu0 => ⟨fun hscroll => ?_, fun hpause hus => ?_⟩⟩
  · have hus : u < D / (numSteps D : ℚ) := lt_of_lt_of_le hscroll (by nlinarith)
    rw [steppedProgress_step_eq hD k hk hu0 hus]
    rw [stepInner, if_pos hscroll]
  · rw [steppedProgress_step_eq hD k hk hu0 hus]
    rw [stepInner, if_neg (not_lt.mpr hpause)]

/-- Witness for `steppedProgress_spec` at `D = 10`. -/
theorem steppedProgress_spec_witness : steppedProgress 10 10 = 1 :=
  (steppedProgress_spec 10 (by norm_num)).2.2.2.1 10 le_rfl

/-- C6. Smoothstep easing of `createScrollingBackground`
(`videoProcessor.js:103`): `ease 0 = 0`, `ease 1 = 1`, `ease` is
non-decreasing on `[0,1]`; the progress at time `t ≥ 0` agrees with the
claim's `clamp(t,0,D)/D` normalization, and holds 1 for all `t ≥ D`. -/
theorem smoothstep_spec (D : ℚ) (hD : 0 < D) :
    ease 0 = 0 ∧ ease 1 = 1
    ∧ (∀ a b : ℚ, 0 ≤ a → a ≤ b → b ≤ 1 → ease a ≤ ease b)
    ∧ (∀ t : ℚ, 0 ≤ t → smoothProgress D t = ease (max 0 (min t D) / D))
    ∧ (∀ t : ℚ, D ≤ t → smoothProgress D t = 1) := by
  refine ⟨ease_zero, ease_one, fun a b ha hab hb => ease_mono ha hab hb,
    fun t ht => ?_, fun t ht => ?_⟩
  · rw [max_eq_right (le_min ht hD.le)]
    rfl
  · unfold smoothProgress
    rw [min_eq_right ht, div_self hD.ne']
    exact ease_one

/-- Witness for `smoothstep_spec` at `D = 15`. -/
theorem smoothstep_spec_witness : smoothProgress 15 20 = 1 :=
  (smoothstep_spec 15 (by norm_num)).2.2.2.2 20 (by norm_num)

/-- C7. Background duration (`videoProcessor.js:349-358`): for bubble styles
the total is `max(scrollDuration, introVideoDuration + 1)`, hence at least the
intro duration; for full-screen it is the scroll duration alone. -/
theorem totalBackgroundDuration_spec (style : VideoStyle) (scrollD introD : ℚ) :
    ((style = .small_bubble ∨ style = .big_bubble) →
      totalBackgroundDuration style scrollD introD = max scrollD (introD + 1)
      ∧ introD ≤ totalBackgroundDuration style scrollD introD)
    ∧ (style = .full_screen → totalBackgroundDuration style scrollD introD = scrollD) := by
  constructor
  · intro h
    rw [totalBackgroundDuration, if_pos h]
    exact ⟨rfl, le_trans (by linarith) (le_max_right scrollD (introD + 1))⟩
  · intro h
    subst h
    rw [totalBackgroundDuration, if_neg (by simp)]

/-- Witness for `totalBackgroundDuration_spec`: the §8 scenario (intro 12s,
configured scroll 15s, bubble style) and the full-screen branch. -/
theorem totalBackgroundDuration_spec_witness :
    (12 : ℚ) ≤ totalBackgroundDuration .small_bubble 15 12
    ∧ totalBackgroundDuration .full_screen 15 12 = 15 :=
  ⟨((totalBackgroundDuration_spec .small_bubble 15 12).1 (Or.inl rfl)).2,
   (totalBackgroundDuration_spec .full_screen 15 12).2 rfl⟩

/-! ## The `generated_videos` store and the worker's status upserts

`videos.js` (`processVideoJob`, lines 139-212). The table is modelled as a
list of rows so that the per-lead uniqueness invariant is a theorem, not a
modelling artifact. The three SQL statements are:
* lines 146-157: `INSERT ... VALUES (..., 'processing', ...) ON CONFLICT ON
  CONSTRAINT unique_lead_video DO UPDATE SET status='processing',
  unique_slug=EXCLUDED.unique_slug, campaign_id=EXCLUDED.campaign_id,
  error_message=NULL, expires_at=$4, updated_at=...`;
* lines 179-188: `UPDATE generated_videos SET status='completed', video_path,
  preview_path, thumbnail_path, background_path, updated_at WHERE lead_id`;
* lines 199-207: `INSERT ... VALUES (..., 'failed', $4, $5) ON CONFLICT ...
  DO UPDATE SET status='failed', error_message=$4, updated_at=...`.
Note that neither the processing upsert nor the failed upsert touches the
four path columns. -/

inductive VideoStatus
  | pending
  | processing
  | completed
  | failed
deriving DecidableEq

structure VideoRow where
  lead_id : String
  campaign_id : String
  unique_slug : String
  status : VideoStatus
  video_path : Option String
  preview_path : Option String
  thumbnail_path : Option String
  background_path : Option String
  error_message : Option String
  expires_at : ℕ
deriving DecidableEq

abbrev VideoTable := List VideoRow

/-- Row effect of the `'processing'` upsert's `DO UPDATE` arm
(`videos.js:150-156`): refresh status, slug, campaign, clear the error and
install the new expiry; paths untouched. -/
def procRow (r : VideoRow) (campaignId slug : String) (expiresAt : ℕ) : VideoRow :=
  { r with status := VideoStatus.processing, unique_slug := slug,
           campaign_id := campaignId, error_message := none,
           expires_at := expiresAt }

/-- Row inserted by the `'processing'` upsert's `INSERT` arm
(`videos.js:147-148`): unlisted columns default to NULL. -/
def freshProcRow (leadId campaignId slug : String) (expiresAt : ℕ) : VideoRow :=
  { lead_id := leadId, campaign_id := campaignId, unique_slug := slug,
    status := VideoStatus.processing, video_path := none, preview_path := none,
    thumbnail_path := none, background_path := none, error_message := none,
    expires_at := expiresAt }

/-- Row effect of the `'completed'` UPDATE (`videos.js:179-188`): status and
the four artifact paths; slug, expiry and error message untouched. -/
def completeRow (r : VideoRow) (v p th b : String) : VideoRow :=
  { r with status := VideoStatus.completed, video_path := some v,
           preview_path := some p, thumbnail_path := some th,
           background_path := some b }

/-- Row effect of the `'failed'` upsert's `DO UPDATE` arm
(`videos.js:202-206`): only status and error message; slug, expiry and paths
keep their prior values. -/
def failRow (r : VideoRow) (errMsg : String) : VideoRow :=
  { r with status := VideoStatus.failed, error_message := some errMsg }

/-- Row inserted by the `'failed'` upsert's `INSERT` arm (`videos.js:200-201`). -/
def freshFailRow (leadId campaignId slug errMsg : String) (expiresAt : ℕ) : VideoRow :=
  { lead_id := leadId, campaign_id := campaignId, unique_slug := slug,
    status := VideoStatus.failed, video_path := none, preview_path := none,
    thumbnail_path := none, background_path := none,
    error_message := some errMsg, expires_at := expiresAt }

/-- The `'processing'` upsert of `videos.js:146-157`: insert, or on conflict
with the per-lead unique constraint, update per `procRow`. -/
def upsertProcessing (tbl : VideoTable) (leadId campaignId slug : String)
    (expiresAt : ℕ) : VideoTable :=
  if tbl.any (fun r => r.lead_id == leadId) then
    tbl.map (fun r => if r.lead_id = leadId then procRow r campaignId slug expiresAt else r)
  else
    tbl ++ [freshProcRow leadId campaignId slug expiresAt]

/-- The `'completed'` UPDATE of `videos.js:179-188`. -/
def updateCompleted (tbl : VideoTable) (leadId v p th b : String) : VideoTable :=
  tbl.map (fun r => if r.lead_id = leadId then completeRow r v p th b else r)

/-- The `'failed'` upsert of `videos.js:199-207`: insert, or on conflict,
update per `failRow`. -/
def upsertFailed (tbl : VideoTable) (leadId campaignId slug errMsg : String)
    (expiresAt : ℕ) : VideoTable :=
  if tbl.any (fun r => r.lead_id == leadId) then
    tbl.map (fun r => if r.lead_id = leadId then failRow r errMsg else r)
  else
    tbl ++ [freshFailRow leadId campaignId slug errMsg expiresAt]

/-- Terminal outcome of one worker run of a lead's job. -/
inductive RunOutcome
  | completed (videoPath previewPath thumbnailPath backgroundPath : String)
  | failed (errMsg : String)
deriving DecidableEq

/-- One run of `processVideoJob` for a lead, as seen by the store: the fresh
slug and expiry generated at job start (`videos.js:141-142`), and the
terminal outcome. -/
structure JobRun where
  campaignId : String
  slug : String
  expiresAt : ℕ
  outcome : RunOutcome
deriving DecidableEq

/-- The pair of status writes one `processVideoJob` run performs: the
`'processing'` upsert at job start, then the `'completed'` or `'failed'`
upsert at job end, with the same slug/expiry values in both statements. -/
def applyRun (tbl : VideoTable) (leadId : String) (run : JobRun) : VideoTable :=
  match run.outcome with
  | .completed v p th b =>
      updateCompleted (upsertProcessing tbl leadId run.campaignId run.slug run.expiresAt)
        leadId v p th b
  | .failed e =>
      upsertFailed (upsertProcessing tbl leadId run.campaignId run.slug run.expiresAt)
        leadId run.campaignId run.slug e run.expiresAt

def applyRuns (tbl : VideoTable) (leadId : String) (runs : List JobRun) : VideoTable :=
  runs.foldl (fun t run => applyRun t leadId run) tbl

/-- Effect of one full run on the lead's single row. -/
def runRow (r : VideoRow) (run : JobRun) : VideoRow :=
  match run.outcome with
  | .completed v p th b => completeRow (procRow r run.campaignId run.slug run.expiresAt) v p th b
  | .failed e => failRow (procRow r run.campaignId run.slug run.expiresAt) e

/-- Blank row standing for "no record yet"; a fresh insert during run `run`
produces exactly `runRow (baseRow leadId) run`. -/
def baseRow (leadId : String) : VideoRow :=
  { lead_id := leadId, campaign_id := "", unique_slug := "",
    status := VideoStatus.pending, video_path := none, preview_path := none,
    thumbnail_path := none, background_path := none, error_message := none,
    expires_at := 0 }

/-- The path columns after a list of runs: the values written by the most
recent `'completed'` upsert, or the starting values if no run completed. -/
def runPaths (ps : Option String × Option String × Option String × Option String)
    (run : JobRun) : Option String × Option String × Option String × Option String :=
  match run.outcome with
  | .completed v p th b => (some v, some p, some th, some b)
  | .failed _ => ps

def pathsAfter (ps : Option String × Option String × Option String × Option String)
    (runs : List JobRun) : Option String × Option String × Option String × Option String :=
  runs.foldl runPaths ps

theorem runRow_lead (r : VideoRow) (run : JobRun) : (runRow r run).lead_id = r.lead_id := by
  unfold runRow
  cases run.outcome <;> rfl

theorem map_upd_of_absent (tbl : VideoTable) (leadId : String) (g : VideoRow → VideoRow)
    (h : ∀ r ∈ tbl, r.lead_id ≠ leadId) :
    tbl.map (fun r => if r.lead_id = leadId then g r else r) = tbl := by
  conv_rhs => rw [← List.map_id tbl]
  apply List.map_congr_left
  intro r hr
  simp [h r hr]

theorem any_lead_false (tbl : VideoTable) (leadId : String)
    (h : ∀ r ∈ tbl, r.lead_id ≠ leadId) :
    tbl.any (fun r => r.lead_id == leadId) = false := by
  simp only [List.any_eq_false, beq_iff_eq]
  exact h

theorem any_lead_true (tbl : VideoTable) (row : VideoRow) (leadId : String)
    (hrow : row.lead_id = leadId) :
    (tbl ++ [row]).any (fun r => r.lead_id == leadId) = true := by
  simp only [List.any_eq_true, beq_iff_eq]
  exact ⟨row, by simp, hrow⟩

theorem map_upd_append (tbl : VideoTable) (leadId : String) (row : VideoRow)
    (hrow : row.lead_id = leadId) (h : ∀ r ∈ tbl, r.lead_id ≠ leadId)
    (g : VideoRow → VideoRow) :
    (tbl ++ [row]).map (fun r => if r.lead_id = leadId then g r else r)
      = tbl ++ [g row] := by
  rw [List.map_append, map_upd_of_absent tbl leadId g h]
  simp [hrow]

theorem applyRun_term (tin tbl : VideoTable) (leadId : String) (row : VideoRow)
    (hrow : row.lead_id = leadId) (h : ∀ r ∈ tbl, r.lead_id ≠ leadId) (run : JobRun)
    (hproc : upsertProcessing tin leadId run.campaignId run.slug run.expiresAt
      = tbl ++ [procRow row run.campaignId run.slug run.expiresAt]) :
    applyRun tin leadId run = tbl ++ [runRow row run] := by
  have hlead : (procRow row run.campaignId run.slug run.expiresAt).lead_id = leadId := hrow
  cases hout : run.outcome with
  | completed v p th b =>
      have he : applyRun tin leadId run
          = updateCompleted (upsertProcessing tin leadId run.campaignId
              run.slug run.expiresAt) leadId v p th b := by
        unfold applyRun; rw [hout]
      have hr : runRow row run
          = completeRow (procRow row run.campaignId run.slug run.expiresAt) v p th b := by
        unfold runRow; rw [hout]
      rw [he, hproc, hr]
      exact map_upd_append tbl leadId _ hlead h _
  | failed e =>
      have he : applyRun tin leadId run
          = upsertFailed (upsertProcessing tin leadId run.campaignId
              run.slug run.expiresAt) leadId run.campaignId run.slug e run.expiresAt := by
        unfold applyRun; rw [hout]
      have hr : runRow row run
          = failRow (procRow row run.campaignId run.slug run.expiresAt) e := by
        unfold runRow; rw [hout]
      rw [he, hproc, hr]
      unfold upsertFailed
      rw [any_lead_true tbl _ leadId hlead, if_pos rfl]
      exact map_upd_append tbl leadId _ hlead h _

theorem applyRun_present (tbl : VideoTable) (leadId : String) (row : VideoRow)
    (hrow : row.lead_id = leadId) (h : ∀ r ∈ tbl, r.lead_id ≠ leadId) (run : JobRun) :
    applyRun (tbl ++ [row]) leadId run = tbl ++ [runRow row run] := by
  apply applyRun_term (tbl ++ [row]) tbl leadId row hrow h run
  unfold upsertProcessing
  rw [any_lead_true tbl row leadId hrow, if_pos rfl]
  exact map_upd_append tbl leadId row hrow h _

theorem applyRun_absent (tbl : VideoTable) (leadId : String)
    (h : ∀ r ∈ tbl, r.lead_id ≠ leadId) (run : JobRun) :
    applyRun tbl leadId run = tbl ++ [runRow (baseRow leadId) run] := by
  apply applyRun_term tbl tbl leadId (baseRow leadId) rfl h run
  unfold upsertProcessing
  rw [any_lead_false tbl leadId h, if_neg (by simp)]
  rfl

theorem applyRuns_present (tbl : VideoTable) (leadId : String)
    (h : ∀ r ∈ tbl, r.lead_id ≠ leadId) (runs : List JobRun) :
    ∀ row : VideoRow, row.lead_id = leadId →
      applyRuns (tbl ++ [row]) leadId runs = tbl ++ [runs.foldl runRow row] := by
  induction runs with
  | nil => intro row _; rfl
  | cons run rest ih =>
      intro row hrow
      show applyRuns (applyRun (tbl ++ [row]) leadId run) leadId rest = _
      rw [applyRun_present tbl leadId row hrow h run]
      exact ih (runRow row run) ((runRow_lead row run).trans hrow)

theorem applyRuns_char (tbl : VideoTable) (leadId : String)
    (h : ∀ r ∈ tbl, r.lead_id ≠ leadId) (run : JobRun) (rest : List JobRun) :
    applyRuns tbl leadId (run :: rest)
      = tbl ++ [rest.foldl runRow (runRow (baseRow leadId) run)] := by
  show applyRuns (applyRun tbl leadId run) leadId rest = _
  rw [applyRun_absent tbl leadId h run]
  exact applyRuns_present tbl leadId h rest _ ((runRow_lead _ run).trans rfl)

theorem foldRow_lead (runs : List JobRun) :
    ∀ row : VideoRow, (runs.foldl runRow row).lead_id = row.lead_id := by
  induction runs with
  | nil => intro row; rfl
  | cons run rest ih =>
      intro row
      rw [List.foldl_cons, ih (runRow row run), runRow_lead]

theorem runRow_slug (r : VideoRow) (run : JobRun) : (runRow r run).unique_slug = run.slug := by
  unfold runRow; cases run.outcome <;> rfl

theorem runRow_campaign (r : VideoRow) (run : JobRun) :
    (runRow r run).campaign_id = run.campaignId := by
  unfold runRow; cases run.outcome <;> rfl

theorem runRow_expiry (r : VideoRow) (run : JobRun) :
    (runRow r run).expires_at = run.expiresAt := by
  unfold runRow; cases run.outcome <;> rfl

theorem foldRow_paths (runs : List JobRun) :
    ∀ row : VideoRow,
      ((runs.foldl runRow row).video_path, (runs.foldl runRow row).preview_path,
       (runs.foldl runRow row).thumbnail_path, (runs.foldl runRow row).background_path)
      = pathsAfter (row.video_path, row.preview_path, row.thumbnail_path,
          row.background_path) runs := by
  induction runs with
  | nil => intro row; rfl
  | cons run rest ih =>
      intro row
      rw [List.foldl_cons,
        show pathsAfter (row.video_path, row.preview_path, row.thumbnail_path,
            row.background_path) (run :: rest)
          = pathsAfter (runPaths (row.video_path, row.preview_path,
              row.thumbnail_path, row.background_path) run) rest from rfl,
        ih (runRow row run)]
      congr 1
      unfold runRow runPaths
      cases run.outcome <;> rfl

/-- Expected `generated_videos` table after re-running `"lead1"`: a first run
completed with paths `v1/p1/t1/b1`, then a second run failed with `"boom"`.
The failed upsert updates only status and error message, so the stale paths
from the first run survive. -/
def staleRow : VideoRow :=
  { lead_id := "lead1", campaign_id := "c", unique_slug := "slug2",
    status := VideoStatus.failed, video_path := some "v1",
    preview_path := some "p1", thumbnail_path := some "t1",
    background_path := some "b1", error_message := some "boom",
    expires_at := 200 }

def runCompleted1 : JobRun := ⟨"c", "slug1", 100, .completed "v1" "p1" "t1" "b1"⟩

def runFailed2 : JobRun := ⟨"c", "slug2", 200, .failed "boom"⟩

/-- C1 counterexample. A completed run followed by a failed re-run of the same
lead: the final record carries the latest status (`failed`), error, slug and
expiry, but its four path columns still hold `v1/p1/t1/b1` from the first
run's completed upsert — the latest ('failed') upsert writes no paths (its
INSERT arm would leave them NULL and its UPDATE arm does not touch them), so
the paths do not come from the latest upsert as claimed. -/
theorem upsert_stale_paths_counterexample :
    applyRuns [] "lead1" [runCompleted1, runFailed2] = [staleRow]
    ∧ staleRow.video_path = some "v1"
    ∧ staleRow.video_path ≠ none := by
  refine ⟨by decide, rfl, by decide⟩

/-- C1 (amended). For a lead with no prior record, after any nonempty
sequence of worker runs (each a `'processing'` upsert followed by a
`'completed'` or `'failed'` upsert, re-runs included) exactly one record
exists for the lead; its status and error message come from the latest
upsert, its slug, campaign and expiry from the latest run's processing
upsert, while the path columns hold the values of the most recent
`'completed'` upsert (NULL if no run completed) — and the `'processing'`
upsert always installs the fresh slug and expiry, also when a record
already exists. -/
theorem upsert_runs_spec (tbl : VideoTable) (leadId : String)
    (h : ∀ r ∈ tbl, r.lead_id ≠ leadId) (rs : List JobRun) (lastRun : JobRun) :
    (∃ fin : VideoRow,
      applyRuns tbl leadId (rs ++ [lastRun]) = tbl ++ [fin]
      ∧ fin.lead_id = leadId
      ∧ (applyRuns tbl leadId (rs ++ [lastRun])).countP (fun r => r.lead_id == leadId) = 1
      ∧ fin.unique_slug = lastRun.slug
      ∧ fin.campaign_id = lastRun.campaignId
      ∧ fin.expires_at = lastRun.expiresAt
      ∧ (∀ v p th b, lastRun.outcome = .completed v p th b →
          fin.status = .completed ∧ fin.error_message = none
          ∧ fin.video_path = some v ∧ fin.preview_path = some p
          ∧ fin.thumbnail_path = some th ∧ fin.background_path = some b)
      ∧ (∀ e, lastRun.outcome = .failed e →
          fin.status = .failed ∧ fin.error_message = some e)
      ∧ (fin.video_path, fin.preview_path, fin.thumbnail_path, fin.background_path)
          = pathsAfter (none, none, none, none) (rs ++ [lastRun]))
    ∧ (∀ tbl2 : VideoTable, ∀ c s : String, ∀ ex : ℕ,
        ∀ r ∈ upsertProcessing tbl2 leadId c s ex,
          r.lead_id = leadId →
          r.unique_slug = s ∧ r.expires_at = ex ∧ r.status = .processing) := by
  constructor
  · have hne : ∀ runs : List JobRun, runs ≠ [] →
        applyRuns tbl leadId runs = tbl ++ [runs.foldl runRow (baseRow leadId)] := by
      intro runs hruns
      rcases runs with _ | ⟨run0, rest⟩
      · exact absurd rfl hruns
      · rw [applyRuns_char tbl leadId h run0 rest, List.foldl_cons]
    have happ : (rs ++ [lastRun]).foldl runRow (baseRow leadId)
        = runRow (rs.foldl runRow (baseRow leadId)) lastRun := by
      rw [List.foldl_append, List.foldl_cons, List.foldl_nil]
    set mid := rs.foldl runRow (baseRow leadId) with hmid
    refine ⟨runRow mid lastRun, ?_, ?_, ?_, ?_, ?_, ?_, ?_, ?_, ?_⟩
    · rw [hne (rs ++ [lastRun]) (by simp), happ]
    · rw [runRow_lead, hmid, foldRow_lead]
      rfl
    · rw [hne (rs ++ [lastRun]) (by simp), happ, List.countP_append]
      have h0 : tbl.countP (fun r => r.lead_id == leadId) = 0 := by
        rw [List.countP_eq_zero]
        intro r hr
        simpa using h r hr
      have hlead : (runRow mid lastRun).lead_id = leadId := by
        rw [runRow_lead, hmid, foldRow_lead]
        rfl
      rw [h0]
      simp [List.countP_cons, hlead]
    · exact runRow_slug mid lastRun
    · exact runRow_campaign mid lastRun
    · exact runRow_expiry mid lastRun
    · intro v p th b hout
      have hc : runRow mid lastRun
          = completeRow (procRow mid lastRun.campaignId lastRun.slug lastRun.expiresAt) v p th b := by
        unfold runRow
        rw [hout]
      rw [hc]
      exact ⟨rfl, rfl, rfl, rfl, rfl, rfl⟩
    · intro e hout
      have hc : runRow mid lastRun
          = failRow (procRow mid lastRun.campaignId lastRun.slug lastRun.expiresAt) e := by
        unfold runRow
        rw [hout]
      rw [hc]
      exact ⟨rfl, rfl⟩
    · rw [← happ]
      exact foldRow_paths (rs ++ [lastRun]) (baseRow leadId)
  · intro tbl2 c s ex r hr hl
    unfold upsertProcessing at hr
    split at hr
    · rcases List.mem_map.mp hr with ⟨r0, hr0, heq⟩
      by_cases h0 : r0.lead_id = leadId
      · rw [if_pos h0] at heq
        rw [← heq]
        exact ⟨rfl, rfl, rfl⟩
      · rw [if_neg h0] at heq
        exact absurd (heq ▸ hl) h0
    · rename_i hany
      rcases List.mem_append.mp hr with hmem | hmem
      · have hall : ∀ x ∈ tbl2, ¬ x.lead_id = leadId := by simpa using hany
        exact absurd hl (hall r hmem)
      · rw [List.mem_singleton.mp hmem]
        exact ⟨rfl, rfl, rfl⟩

/-- Witness for `upsert_runs_spec`: empty prior table, a single completed run. -/
theorem upsert_runs_spec_witness :
    (∀ r ∈ ([] : VideoTable), r.lead_id ≠ "lead1")
    ∧ (applyRuns [] "lead1" ([] ++ [runCompleted1])).countP
        (fun r => r.lead_id == "lead1") = 1 := by
  refine ⟨by simp, ?_⟩
  obtain ⟨⟨fin, _, _, hcount, _⟩, _⟩ :=
    upsert_runs_spec [] "lead1" (by simp) [] runCompleted1
  exact hcount


/-! ## Job queue worker loop (`videos.js:114-212`)

`processQueue` drains the in-memory FIFO (`processingQueue.shift()`) one job
at a time, awaiting `processVideoJob` for each. `processVideoJob` wraps the
whole job in try/catch; the catch block's `'failed'` upsert is wrapped in its
own try/catch whose error is only logged (lines 208-210), so no job ever
throws out of the loop. Store writes can fail (§7 "Persistence error"); each
write's outcome is part of the job's environment record. -/

/-- Result object returned by `processor.generateVSL` (it catches internally
and never throws). -/
inductive PipelineResult
  | ok (videoPath previewPath thumbnailPath backgroundPath : String)
  | err (msg : String)
deriving DecidableEq

/-- One queue entry together with the environment behaviour during its
processing: the pipeline outcome and whether each of the three store writes
succeeds (with the db error text used when a write throws). -/
structure QueueJob where
  leadId : String
  campaignId : String
  slug : String
  expiresAt : ℕ
  pipeline : PipelineResult
  procWriteOk : Bool
  completedWriteOk : Bool
  failedWriteOk : Bool
  procErrMsg : String
  completedErrMsg : String
deriving DecidableEq

/-- `processVideoJob` (`videos.js:139-212`): the `'processing'` upsert, then
the pipeline, then the `'completed'` UPDATE; any thrown error (processing
write, pipeline failure rethrown at line 192, or completed write) lands in
the catch block, which attempts the `'failed'` upsert with the error's
message and swallows that upsert's own failure. -/
def processVideoJob (tbl : VideoTable) (job : QueueJob) : VideoTable :=
  if job.procWriteOk then
    match job.pipeline with
    | .ok v p th b =>
        if job.completedWriteOk then
          updateCompleted (upsertProcessing tbl job.leadId job.campaignId job.slug job.expiresAt)
            job.leadId v p th b
        else if job.failedWriteOk then
          upsertFailed (upsertProcessing tbl job.leadId job.campaignId job.slug job.expiresAt)
            job.leadId job.campaignId job.slug job.completedErrMsg job.expiresAt
        else
          upsertProcessing tbl job.leadId job.campaignId job.slug job.expiresAt
    | .err e =>
        if job.failedWriteOk then
          upsertFailed (upsertProcessing tbl job.leadId job.campaignId job.slug job.expiresAt)
            job.leadId job.campaignId job.slug e job.expiresAt
        else
          upsertProcessing tbl job.leadId job.campaignId job.slug job.expiresAt
  else
    if job.failedWriteOk then
      upsertFailed tbl job.leadId job.campaignId job.slug job.procErrMsg job.expiresAt
    else
      tbl

/-- `processQueue` (`videos.js:114-136`): take the head of the queue, await
its processing, continue with the rest until the queue is empty. Returns the
final store state and the trace of processed lead ids in order. -/
def processQueue (tbl : VideoTable) : List QueueJob → VideoTable × List String
  | [] => (tbl, [])
  | job :: rest =>
      let out := processQueue (processVideoJob tbl job) rest
      (out.1, job.leadId :: out.2)

theorem processQueue_trace (queue : List QueueJob) :
    ∀ tbl : VideoTable, (processQueue tbl queue).2 = queue.map (fun j => j.leadId) := by
  induction queue with
  | nil => intro tbl; rfl
  | cons job rest ih =>
      intro tbl
      show (job.leadId :: (processQueue (processVideoJob tbl job) rest).2) = _
      rw [ih, List.map_cons]

theorem filter_map_upd (tbl : VideoTable) (leadId x : String) (hx : leadId ≠ x)
    (g : VideoRow → VideoRow) (hg : ∀ r, (g r).lead_id = r.lead_id) :
    (tbl.map (fun r => if r.lead_id = leadId then g r else r)).filter
        (fun r => r.lead_id == x)
      = tbl.filter (fun r => r.lead_id == x) := by
  induction tbl with
  | nil => rfl
  | cons r rest ih =>
      rw [List.map_cons]
      by_cases h0 : r.lead_id = leadId
      · have h1 : ¬ ((g r).lead_id = x) := by rw [hg r, h0]; exact hx
        have h2 : ¬ (r.lead_id = x) := by rw [h0]; exact hx
        rw [if_pos h0]
        simp only [List.filter_cons, beq_iff_eq]
        rw [if_neg (by simpa using h1), if_neg (by simpa using h2)]
        exact ih
      · rw [if_neg h0, List.filter_cons, List.filter_cons, ih]

theorem filter_append_one (tbl : VideoTable) (row : VideoRow) (x : String)
    (hrow : row.lead_id ≠ x) :
    (tbl ++ [row]).filter (fun r => r.lead_id == x)
      = tbl.filter (fun r => r.lead_id == x) := by
  rw [List.filter_append]
  simp [hrow]

theorem filter_upsertProcessing (tbl : VideoTable) (leadId c s : String) (ex : ℕ)
    (x : String) (hx : leadId ≠ x) :
    (upsertProcessing tbl leadId c s ex).filter (fun r => r.lead_id == x)
      = tbl.filter (fun r => r.lead_id == x) := by
  unfold upsertProcessing
  split
  · exact filter_map_upd tbl leadId x hx _ (fun r => rfl)
  · exact filter_append_one tbl _ x hx

theorem filter_updateCompleted (tbl : VideoTable) (leadId v p th b : String)
    (x : String) (hx : leadId ≠ x) :
    (updateCompleted tbl leadId v p th b).filter (fun r => r.lead_id == x)
      = tbl.filter (fun r => r.lead_id == x) := by
  unfold updateCompleted
  exact filter_map_upd tbl leadId x hx _ (fun r => rfl)

theorem filter_upsertFailed (tbl : VideoTable) (leadId c s msg : String) (ex : ℕ)
    (x : String) (hx : leadId ≠ x) :
    (upsertFailed tbl leadId c s msg ex).filter (fun r => r.lead_id == x)
      = tbl.filter (fun r => r.lead_id == x) := by
  unfold upsertFailed
  split
  · exact filter_map_upd tbl leadId x hx _ (fun r => rfl)
  · exact filter_append_one tbl _ x hx

theorem filter_processVideoJob (tbl : VideoTable) (job : QueueJob) (x : String)
    (hx : job.leadId ≠ x) :
    (processVideoJob tbl job).filter (fun r => r.lead_id == x)
      = tbl.filter (fun r => r.lead_id == x) := by
  unfold processVideoJob
  split
  · split
    · split
      · rw [filter_updateCompleted _ _ _ _ _ _ x hx, filter_upsertProcessing _ _ _ _ _ x hx]
      · split
        · rw [filter_upsertFailed _ _ _ _ _ _ x hx, filter_upsertProcessing _ _ _ _ _ x hx]
        · exact filter_upsertProcessing _ _ _ _ _ x hx
    · split
      · rw [filter_upsertFailed _ _ _ _ _ _ x hx, filter_upsertProcessing _ _ _ _ _ x hx]
      · exact filter_upsertProcessing _ _ _ _ _ x hx
  · split
    · exact filter_upsertFailed _ _ _ _ _ _ x hx
    · rfl

theorem filter_processQueue (queue : List QueueJob) (x : String)
    (hall : ∀ j ∈ queue, j.leadId ≠ x) :
    ∀ tbl : VideoTable,
      (processQueue tbl queue).1.filter (fun r => r.lead_id == x)
        = tbl.filter (fun r => r.lead_id == x) := by
  induction queue with
  | nil => intro tbl; rfl
  | cons job rest ih =>
      intro tbl
      show ((processQueue (processVideoJob tbl job) rest).1.filter _) = _
      rw [ih (fun j hj => hall j (List.mem_cons_of_mem job hj)),
        filter_processVideoJob tbl job x (hall job (List.mem_cons_self job rest))]

theorem exists_lead_upsertProcessing (tbl : VideoTable) (l c s : String) (ex : ℕ) :
    ∃ r ∈ upsertProcessing tbl l c s ex, r.lead_id = l := by
  unfold upsertProcessing
  split
  · rename_i hany
    rcases List.any_eq_true.mp hany with ⟨r0, hr0, hp⟩
    have hl0 : r0.lead_id = l := by simpa using hp
    refine ⟨if r0.lead_id = l then procRow r0 c s ex else r0,
      List.mem_map_of_mem _ hr0, ?_⟩
    rw [if_pos hl0]
    exact hl0
  · exact ⟨freshProcRow l c s ex, by simp, rfl⟩

theorem upsertFailed_all (tbl : VideoTable) (l c s msg : String) (ex : ℕ)
    (hex : ∃ r ∈ tbl, r.lead_id = l) :
    (∃ r ∈ upsertFailed tbl l c s msg ex, r.lead_id = l)
    ∧ ∀ r ∈ upsertFailed tbl l c s msg ex, r.lead_id = l →
        r.status = .failed ∧ r.error_message = some msg := by
  rcases hex with ⟨r0, hr0, hl0⟩
  have hany : tbl.any (fun r => r.lead_id == l) = true :=
    List.any_eq_true.mpr ⟨r0, hr0, by simpa using hl0⟩
  unfold upsertFailed
  rw [hany, if_pos rfl]
  constructor
  · refine ⟨if r0.lead_id = l then failRow r0 msg else r0,
      List.mem_map_of_mem _ hr0, ?_⟩
    rw [if_pos hl0]
    exact hl0
  · intro r hr hl
    rcases List.mem_map.mp hr with ⟨r1, hr1, heq⟩
    by_cases h1 : r1.lead_id = l
    · rw [if_pos h1] at heq
      rw [← heq]
      exact ⟨rfl, rfl⟩
    · rw [if_neg h1] at heq
      exact absurd (heq ▸ hl) h1

theorem processVideoJob_failed (tbl : VideoTable) (job : QueueJob) (e : String)
    (hpip : job.pipeline = .err e) (h1 : job.procWriteOk = true)
    (h2 : job.failedWriteOk = true) :
    (∃ r ∈ processVideoJob tbl job, r.lead_id = job.leadId)
    ∧ ∀ r ∈ processVideoJob tbl job, r.lead_id = job.leadId →
        r.status = .failed ∧ r.error_message = some e := by
  have hred : processVideoJob tbl job
      = upsertFailed (upsertProcessing tbl job.leadId job.campaignId job.slug job.expiresAt)
          job.leadId job.campaignId job.slug e job.expiresAt := by
    unfold processVideoJob
    rw [h1, hpip, h2]
    rfl
  rw [hred]
  exact upsertFailed_all _ _ _ _ _ _
    (exists_lead_upsertProcessing tbl job.leadId job.campaignId job.slug job.expiresAt)

theorem processQueue_append (pre rest : List QueueJob) :
    ∀ tbl : VideoTable,
      (processQueue tbl (pre ++ rest)).1 = (processQueue (processQueue tbl pre).1 rest).1 := by
  induction pre with
  | nil => intro tbl; rfl
  | cons job pre2 ih =>
      intro tbl
      show (processQueue (processVideoJob tbl job) (pre2 ++ rest)).1 = _
      exact ih (processVideoJob tbl job)


/-- C3 (amended). The worker loop processes the enqueued jobs strictly
sequentially in FIFO enqueue order (the trace of processed leads is the queue
order), and no job failure — pipeline error or status-write error — stops the
loop: every job behind a failing job is still processed. A job failing with a
pipeline error is recorded `'failed'` with the error text provided its
`'failed'` status write succeeds (and no later job re-runs the same lead); if
that status write itself fails, the error is swallowed and the loop continues,
but the lead's record is left in its prior state. -/
theorem processQueue_spec (tbl : VideoTable) (queue : List QueueJob) :
    (processQueue tbl queue).2 = queue.map (fun j => j.leadId)
    ∧ (∀ (pre : List QueueJob) (j : QueueJob) (post : List QueueJob),
        queue = pre ++ j :: post →
        ∀ e : String, j.pipeline = .err e → j.procWriteOk = true →
        j.failedWriteOk = true →
        (∀ j2 ∈ post, j2.leadId ≠ j.leadId) →
        (∃ r ∈ (processQueue tbl queue).1, r.lead_id = j.leadId)
        ∧ ∀ r ∈ (processQueue tbl queue).1, r.lead_id = j.leadId →
            r.status = .failed ∧ r.error_message = some e) := by
  refine ⟨processQueue_trace queue tbl, ?_⟩
  intro pre j post hq e hpip h1 h2 hpost
  subst hq
  have hT : (processQueue tbl (pre ++ j :: post)).1
      = (processQueue (processVideoJob (processQueue tbl pre).1 j) post).1 := by
    rw [processQueue_append pre (j :: post) tbl]
    rfl
  set after := processVideoJob (processQueue tbl pre).1 j with hafter
  have hP := processVideoJob_failed (processQueue tbl pre).1 j e hpip h1 h2
  have hfe : (processQueue after post).1.filter (fun r => r.lead_id == j.leadId)
      = after.filter (fun r => r.lead_id == j.leadId) :=
    filter_processQueue post j.leadId hpost after
  constructor
  · rcases hP.1 with ⟨r, hr, hlr⟩
    have hrf : r ∈ after.filter (fun r => r.lead_id == j.leadId) :=
      List.mem_filter.mpr ⟨hr, by simpa using hlr⟩
    have : r ∈ (processQueue after post).1.filter (fun r => r.lead_id == j.leadId) := by
      rw [hfe]; exact hrf
    exact ⟨r, by rw [hT]; exact (List.mem_filter.mp this).1, hlr⟩
  · intro r hr hlr
    rw [hT] at hr
    have hrf : r ∈ (processQueue after post).1.filter (fun r => r.lead_id == j.leadId) :=
      List.mem_filter.mpr ⟨hr, by simpa using hlr⟩
    rw [hfe] at hrf
    exact hP.2 r (List.mem_filter.mp hrf).1 hlr

/-- Failing job whose `'failed'` status write succeeds (for the witness). -/
def wjobFail : QueueJob :=
  ⟨"lead1", "c", "s1", 100, .err "boom", true, true, true, "db", "db"⟩

/-- Healthy job enqueued behind the failing one. -/
def wjobOk : QueueJob :=
  ⟨"lead2", "c", "s2", 100, .ok "v" "p" "t" "b", true, true, true, "db", "db"⟩

/-- Witness for `processQueue_spec`: a failing job followed by a healthy job. -/
theorem processQueue_spec_witness :
    (∃ r ∈ (processQueue [] [wjobFail, wjobOk]).1, r.lead_id = "lead1")
    ∧ ∀ r ∈ (processQueue [] [wjobFail, wjobOk]).1, r.lead_id = "lead1" →
        r.status = .failed ∧ r.error_message = some "boom" :=
  (processQueue_spec [] [wjobFail, wjobOk]).2 [] wjobFail [wjobOk] rfl
    "boom" rfl rfl rfl (by decide)

/-- Failing job whose `'failed'` status write itself fails (swallowed). -/
def cjobFail : QueueJob :=
  ⟨"lead1", "c", "s1", 100, .err "boom", true, true, false, "db", "db"⟩

def cjobOk : QueueJob :=
  ⟨"lead2", "c", "s2", 100, .ok "v" "p" "t" "b", true, true, true, "db", "db"⟩

/-- C3 counterexample. When the pipeline fails AND the `'failed'` status write
for that job fails too, the loop still processes the job behind it (trace
`["lead1","lead2"]`) but `lead1` is left `'processing'`, not recorded
`'failed'` with the error text as the claim states. -/
theorem processQueue_counterexample :
    (processQueue [] [cjobFail, cjobOk]).2 = ["lead1", "lead2"]
    ∧ (processQueue [] [cjobFail, cjobOk]).1.map (fun r => (r.lead_id, r.status))
        = [("lead1", VideoStatus.processing), ("lead2", VideoStatus.completed)]
    ∧ VideoStatus.processing ≠ VideoStatus.failed := by
  refine ⟨by decide, by decide, by decide⟩


/-! ## Status endpoint (`videos.js:215-264`)

The route counts per-status `generated_videos` rows of the campaign, counts
the campaign's leads, computes `waitingForProcessing = totalLeads -
videosCreated`, and reports `pending = store pending + max(0,
waitingForProcessing)`; the in-memory queue count is returned separately as
`queuePosition`. -/

structure Lead where
  id : String
  campaign_id : String
deriving DecidableEq

structure StatusResponse where
  completed : ℤ
  processing : ℤ
  pending : ℤ
  failed : ℤ
  total : ℤ
  queuePosition : ℤ
deriving DecidableEq

/-- `COUNT(*) FILTER (WHERE status = ...)` over the campaign's rows. -/
def countStatus (tbl : VideoTable) (c : String) (st : VideoStatus) : ℤ :=
  ((tbl.filter (fun r => decide (r.campaign_id = c ∧ r.status = st))).length : ℤ)

/-- The campaign's `generated_videos` rows (`WHERE campaign_id = $1`). -/
def campaignRows (tbl : VideoTable) (c : String) : VideoTable :=
  tbl.filter (fun r => decide (r.campaign_id = c))

/-- The campaign's leads (`SELECT COUNT(*) FROM leads WHERE campaign_id`). -/
def campaignLeads (leads : List Lead) (c : String) : List Lead :=
  leads.filter (fun l => decide (l.campaign_id = c))

/-- The `GET /status/:campaignId` handler (`videos.js:215-259`). -/
def getStatus (tbl : VideoTable) (leads : List Lead) (queue : List QueueJob)
    (campaignId : String) : StatusResponse :=
  let videosCreated : ℤ := ((campaignRows tbl campaignId).length : ℤ)
  let totalLeads : ℤ := ((campaignLeads leads campaignId).length : ℤ)
  let queuedInMemory : ℤ :=
    ((queue.filter (fun j => decide (j.campaignId = campaignId))).length : ℤ)
  let waitingForProcessing : ℤ := totalLeads - videosCreated
  { completed := countStatus tbl campaignId .completed,
    processing := countStatus tbl campaignId .processing,
    pending := countStatus tbl campaignId .pending + max 0 waitingForProcessing,
    failed := countStatus tbl campaignId .failed,
    total := totalLeads,
    queuePosition := queuedInMemory }

/-- Modelled from the spec's words (§4.5): "combining the external store's
per-status counts with the in-memory queue's pending count for that campaign
(leads enqueued but not yet reflected in the store)". This is the claim's
pending value, to be compared with the code's `getStatus`. -/
def specPending (tbl : VideoTable) (queue : List QueueJob) (c : String) : ℤ :=
  countStatus tbl c .pending
    + ((queue.filter (fun j => decide (j.campaignId = c)
        && !(tbl.any (fun r => decide (r.lead_id = j.leadId))))).length : ℤ)

def cLead : Lead := ⟨"lead1", "c1"⟩

/-- C8 counterexample. A campaign with one lead, an empty store and an empty
queue: the code reports `pending = 1` (the lead has no video record yet),
while the claim's "store pending + enqueued-but-unreflected" value is `0` —
the code derives the extra pending count from the leads table, not from the
in-memory queue. -/
theorem status_pending_counterexample :
    (getStatus [] [cLead] [] "c1").pending = 1
    ∧ specPending [] [] "c1" = 0
    ∧ (1 : ℤ) ≠ 0 := by
  refine ⟨by decide, by decide, by decide⟩

theorem length_filter_split (l : List α) (p : α → Bool) :
    (l.filter p).length + (l.filter (fun a => !(p a))).length = l.length := by
  induction l with
  | nil => rfl
  | cons a t ih =>
      cases h : p a <;> simp [List.filter_cons, h, ← ih] <;> omega

/-- A campaign lead has a record iff its id occurs among the campaign rows'
lead ids. -/
def hasRecord (tbl : VideoTable) (c : String) (l : Lead) : Bool :=
  tbl.any (fun r => decide (r.lead_id = l.id ∧ r.campaign_id = c))

def leadsWithoutRecord (tbl : VideoTable) (leads : List Lead) (c : String) : List Lead :=
  (campaignLeads leads c).filter (fun l => !(hasRecord tbl c l))

theorem hasRecord_iff (tbl : VideoTable) (c : String) (l : Lead) :
    hasRecord tbl c l = true ↔ l.id ∈ (campaignRows tbl c).map (fun r => r.lead_id) := by
  unfold hasRecord campaignRows
  simp only [List.any_eq_true, decide_eq_true_eq, List.mem_map, List.mem_filter]
  constructor
  · rintro ⟨r, hr, hid, hc⟩
    exact ⟨r, ⟨hr, by simp [hc]⟩, hid⟩
  · rintro ⟨r, ⟨hr, hc⟩, hid⟩
    exact ⟨r, hr, hid, by simpa using hc⟩

theorem length_withRecord (tbl : VideoTable) (leads : List Lead) (c : String)
    (hRows : ((campaignRows tbl c).map (fun r => r.lead_id)).Nodup)
    (hLeads : ((campaignLeads leads c).map (fun l => l.id)).Nodup)
    (hCover : ∀ r ∈ campaignRows tbl c, ∃ l ∈ campaignLeads leads c, l.id = r.lead_id) :
    ((campaignLeads leads c).filter (hasRecord tbl c)).length
      = (campaignRows tbl c).length := by
  set L : List String := (campaignRows tbl c).map (fun r => r.lead_id) with hL
  set ids : List String := (campaignLeads leads c).map (fun l => l.id) with hids
  have hsub : ∀ x ∈ L, x ∈ ids := by
    intro x hx
    rcases List.mem_map.mp hx with ⟨r, hr, hxr⟩
    rcases hCover r hr with ⟨l, hl, hlr⟩
    exact List.mem_map.mpr ⟨l, hl, by rw [hlr, hxr]⟩
  have hpred : (campaignLeads leads c).filter (hasRecord tbl c)
      = (campaignLeads leads c).filter (fun l => decide (l.id ∈ L)) := by
    apply List.filter_congr
    intro l _
    rcases h : hasRecord tbl c l with _ | _
    · have := (not_iff_not.mpr (hasRecord_iff tbl c l)).mp (by simp [h])
      simp [this]
    · have := (hasRecord_iff tbl c l).mp h
      simp [this]
  have hmapfilter : ((campaignLeads leads c).filter (fun l => decide (l.id ∈ L))).length
      = (ids.filter (fun x => decide (x ∈ L))).length := by
    rw [hids, List.filter_map, List.length_map]
    rfl
  rw [hpred, hmapfilter]
  have hnodupf : (ids.filter (fun x => decide (x ∈ L))).Nodup := hLeads.filter _
  have hcard1 : (ids.filter (fun x => decide (x ∈ L))).length
      = (ids.filter (fun x => decide (x ∈ L))).toFinset.card :=
    (List.toFinset_card_of_nodup hnodupf).symm
  have hcard2 : (ids.filter (fun x => decide (x ∈ L))).toFinset
      = ids.toFinset ∩ L.toFinset := by
    rw [List.toFinset_filter]
    ext x
    simp [List.mem_toFinset]
  have hBsubA : L.toFinset ⊆ ids.toFinset := by
    intro x hx
    exact List.mem_toFinset.mpr (hsub x (List.mem_toFinset.mp hx))
  have hinter : ids.toFinset ∩ L.toFinset = L.toFinset :=
    Finset.inter_eq_right.mpr hBsubA
  rw [hcard1, hcard2, hinter, List.toFinset_card_of_nodup hRows, hL, List.length_map]

/-- C8 (amended). The status query returns the store's per-status counts of
the campaign together with the campaign's lead count, a pending count equal
to the store's pending count plus the number of the campaign's leads having
no video record at all (`max(0, totalLeads - videosCreated)` — a leads-table
quantity, not a queue quantity), and the in-memory queue count separately as
`queuePosition`. Under a consistent store (one record per lead, every
campaign record belonging to a campaign lead, distinct lead ids) the extra
pending summand equals the count of campaign leads with no record. -/
theorem getStatus_spec (tbl : VideoTable) (leads : List Lead) (queue : List QueueJob)
    (c : String)
    (hRows : ((campaignRows tbl c).map (fun r => r.lead_id)).Nodup)
    (hLeads : ((campaignLeads leads c).map (fun l => l.id)).Nodup)
    (hCover : ∀ r ∈ campaignRows tbl c, ∃ l ∈ campaignLeads leads c, l.id = r.lead_id) :
    (getStatus tbl leads queue c).completed = countStatus tbl c .completed
    ∧ (getStatus tbl leads queue c).processing = countStatus tbl c .processing
    ∧ (getStatus tbl leads queue c).failed = countStatus tbl c .failed
    ∧ (getStatus tbl leads queue c).total = ((campaignLeads leads c).length : ℤ)
    ∧ (getStatus tbl leads queue c).queuePosition
        = ((queue.filter (fun j => decide (j.campaignId = c))).length : ℤ)
    ∧ (getStatus tbl leads queue c).pending
        = countStatus tbl c .pending + ((leadsWithoutRecord tbl leads c).length : ℤ) := by
  refine ⟨rfl, rfl, rfl, rfl, rfl, ?_⟩
  have hsplit : ((campaignLeads leads c).filter (hasRecord tbl c)).length
      + (leadsWithoutRecord tbl leads c).length = (campaignLeads leads c).length :=
    length_filter_split (campaignLeads leads c) (hasRecord tbl c)
  have hwith : ((campaignLeads leads c).filter (hasRecord tbl c)).length
      = (campaignRows tbl c).length := length_withRecord tbl leads c hRows hLeads hCover
  show countStatus tbl c .pending
      + max 0 (((campaignLeads leads c).length : ℤ) - ((campaignRows tbl c).length : ℤ))
    = countStatus tbl c .pending + ((leadsWithoutRecord tbl leads c).length : ℤ)
  rw [← hwith, ← hsplit]
  push_cast
  omega

/-- Witness for `getStatus_spec`: one campaign lead with a completed record,
one without, one enqueued job. -/
theorem getStatus_spec_witness :
    (getStatus [freshProcRow "lead1" "c1" "s1" 5] [⟨"lead1", "c1"⟩, ⟨"lead2", "c1"⟩]
        [⟨"lead2", "c1", "s2", 5, .err "x", true, true, true, "", ""⟩] "c1").pending
      = countStatus [freshProcRow "lead1" "c1" "s1" 5] "c1" .pending
        + ((leadsWithoutRecord [freshProcRow "lead1" "c1" "s1" 5]
            [⟨"lead1", "c1"⟩, ⟨"lead2", "c1"⟩] "c1").length : ℤ) :=
  (getStatus_spec [freshProcRow "lead1" "c1" "s1" 5] [⟨"lead1", "c1"⟩, ⟨"lead2", "c1"⟩]
    [⟨"lead2", "c1", "s2", 5, .err "x", true, true, true, "", ""⟩] "c1"
    (by decide) (by decide) (by decide)).2.2.2.2.2


/-! ## `generateVSL` pipeline — workspace lifecycle
(`videoProcessor.js:309-409`, production storage layout of `storage.js`)

Paths are segment lists (`path.join` appends a segment). The per-lead temp
workspace is `{temp}/{leadId}`; the pipeline stages are modelled through an
environment record carrying each stage's outcome, since the renderer/ffmpeg
results are external. `fs.rm(tempDir, {recursive, force})` removes every
entry under the directory; on the success path it is un-guarded (line 390),
in the catch block its own failure is swallowed (line 403,
`.catch(() => {})`). -/

abbrev FsPath := List String

abbrev Fs := List FsPath

/-- `STORAGE_PATHS.temp` (`storage.js:323`, production base `/data`). -/
def STORAGE_temp : FsPath := ["data", "temp"]

/-- `STORAGE_PATHS.videos` (`storage.js:320`), the worker's `outputDir`
(`videos.js:23`). -/
def STORAGE_videos : FsPath := ["data", "videos"]

/-- `STORAGE_PATHS.previews` (`storage.js:321`). -/
def STORAGE_previews : FsPath := ["data", "videos", "previews"]

/-- `STORAGE_PATHS.thumbnails` (`storage.js:322`). -/
def STORAGE_thumbnails : FsPath := ["data", "videos", "thumbnails"]

/-- Recursive forced removal of a directory: drops every entry at or under
`dir`. -/
def rmrf (dir : FsPath) (fs : Fs) : Fs :=
  fs.filter (fun p => !(decide (dir <+: p)))

/-- The catch-block cleanup `fs.rm(...).catch(() => {})`
(`videoProcessor.js:403`): a failing removal is swallowed, leaving the
filesystem as is. -/
def cleanupSwallow (rmOk : Bool) (dir : FsPath) (fs : Fs) : Fs :=
  if rmOk then rmrf dir fs else fs

/-- Outcomes of the pipeline's external stages, plus the behaviour of the
`fs.rm` syscall (`rmOk = false`: removal attempts throw `rmErrMsg`). -/
structure PipelineEnv where
  introDuration : Except String ℚ
  capture : Except String Unit
  background : Except String Unit
  overlay : Except String Unit
  preview : Except String Unit
  thumbnail : Except String Unit
  rmOk : Bool
  rmErrMsg : String

/-- Structured result of `generateVSL` (`videoProcessor.js:392-398` /
`404-407`). -/
inductive GenResult
  | ok (videoPath previewPath thumbnailPath backgroundPath : FsPath)
  | err (msg : String)
deriving DecidableEq

/-- `generateVSL` (`videoProcessor.js:309-409`): make the per-lead temp
workspace, probe the intro duration, capture the screenshot into the
workspace, render the scrolling background into the workspace, composite the
final video into `outputDir`, write preview and thumbnail to their persistent
directories, then remove the workspace; any stage error short-circuits to the
catch block, which removes the workspace (swallowing removal errors) and
returns `{success:false, error}` with the stage's message. On the success
path the removal is un-guarded, so its failure becomes the returned error. -/
def generateVSL (leadId : String) (env : PipelineEnv) (outputDir : FsPath)
    (fs0 : Fs) : GenResult × Fs :=
  let tempDir := STORAGE_temp ++ [leadId]
  let fs1 := tempDir :: fs0
  match env.introDuration with
  | .error e => (.err e, cleanupSwallow env.rmOk tempDir fs1)
  | .ok _ =>
    let screenshotPath := tempDir ++ ["screenshot.png"]
    match env.capture with
    | .error e =>
        (.err ("Failed to capture website: " ++ e), cleanupSwallow env.rmOk tempDir fs1)
    | .ok _ =>
      let fs2 := screenshotPath :: fs1
      let backgroundVideoPath := tempDir ++ ["background.mp4"]
      match env.background with
      | .error e => (.err e, cleanupSwallow env.rmOk tempDir fs2)
      | .ok _ =>
        let fs3 := backgroundVideoPath :: fs2
        let finalVideoPath := outputDir ++ [leadId ++ ".mp4"]
        match env.overlay with
        | .error e => (.err e, cleanupSwallow env.rmOk tempDir fs3)
        | .ok _ =>
          let fs4 := finalVideoPath :: fs3
          let previewPath := STORAGE_previews ++ [leadId ++ "_preview.mp4"]
          match env.preview with
          | .error e => (.err e, cleanupSwallow env.rmOk tempDir fs4)
          | .ok _ =>
            let fs5 := previewPath :: fs4
            let thumbnailPath := STORAGE_thumbnails ++ [leadId ++ ".jpg"]
            match env.thumbnail with
            | .error e => (.err e, cleanupSwallow env.rmOk tempDir fs5)
            | .ok _ =>
              let fs6 := thumbnailPath :: fs5
              if env.rmOk then
                (.ok finalVideoPath previewPath thumbnailPath screenshotPath,
                 rmrf tempDir fs6)
              else
                (.err env.rmErrMsg, cleanupSwallow env.rmOk tempDir fs6)

theorem mem_rmrf_not_under {dir : FsPath} {fs : Fs} {p : FsPath}
    (hp : p ∈ rmrf dir fs) : ¬ dir <+: p := by
  have h := (List.mem_filter.mp hp).2
  simpa using h

theorem mem_rmrf_of_mem {dir : FsPath} {fs : Fs} {p : FsPath}
    (hp : p ∈ fs) (hnp : ¬ dir <+: p) : p ∈ rmrf dir fs := by
  apply List.mem_filter.mpr
  exact ⟨hp, by simpa using hnp⟩

theorem generateVSL_fs_shape (leadId : String) (env : PipelineEnv)
    (outputDir : FsPath) (fs0 : Fs) (hrm : env.rmOk = true) :
    ∃ fs' : Fs, (generateVSL leadId env outputDir fs0).2
      = rmrf (STORAGE_temp ++ [leadId]) fs' := by
  unfold generateVSL cleanupSwallow
  rw [hrm]
  rcases env.introDuration with e | d
  · exact ⟨_, rfl⟩
  · rcases env.capture with e | u
    · exact ⟨_, rfl⟩
    · rcases env.background with e | u
      · exact ⟨_, rfl⟩
      · rcases env.overlay with e | u
        · exact ⟨_, rfl⟩
        · rcases env.preview with e | u
          · exact ⟨_, rfl⟩
          · rcases env.thumbnail with e | u
            · exact ⟨_, rfl⟩
            · exact ⟨_, rfl⟩

theorem generateVSL_result_rm_independent (leadId : String) (env : PipelineEnv)
    (outputDir : FsPath) (fs0 : Fs) (e : String)
    (herr : (generateVSL leadId { env with rmOk := true } outputDir fs0).1 = .err e) :
    (generateVSL leadId { env with rmOk := false } outputDir fs0).1 = .err e := by
  obtain ⟨ei, ec, eb, eo, ep, et, er, em⟩ := env
  unfold generateVSL at herr ⊢
  dsimp only at herr ⊢
  rcases ei with e0 | d
  · exact herr
  · rcases ec with e0 | u
    · exact herr
    · rcases eb with e0 | u
      · exact herr
      · rcases eo with e0 | u
        · exact herr
        · rcases ep with e0 | u
          · exact herr
          · rcases et with e0 | u
            · exact herr
            · simp at herr

/-- C2. After any `generateVSL` invocation whose workspace-removal syscalls
succeed — success or failure of the pipeline alike — no filesystem entry at
or under the per-lead temp workspace `{temp}/{leadId}` remains; and on the
failure path the removal's own error is swallowed: the returned result is
the same whether the cleanup removal succeeds or throws. -/
theorem generateVSL_cleanup (leadId : String) (env : PipelineEnv)
    (outputDir : FsPath) (fs0 : Fs) (hrm : env.rmOk = true) :
    (∀ p ∈ (generateVSL leadId env outputDir fs0).2,
      ¬ (STORAGE_temp ++ [leadId]) <+: p)
    ∧ (∀ env2 : PipelineEnv, ∀ e : String,
        (generateVSL leadId { env2 with rmOk := true } outputDir fs0).1 = .err e →
        (generateVSL leadId { env2 with rmOk := false } outputDir fs0).1 = .err e) := by
  constructor
  · obtain ⟨fs', hfs⟩ := generateVSL_fs_shape leadId env outputDir fs0 hrm
    intro p hp
    rw [hfs] at hp
    exact mem_rmrf_not_under hp
  · intro env2 e herr
    exact generateVSL_result_rm_independent leadId env2 outputDir fs0 e herr

/-- All-success stage environment (for witnesses). -/
def envOk : PipelineEnv :=
  { introDuration := .ok 12, capture := .ok (), background := .ok (),
    overlay := .ok (), preview := .ok (), thumbnail := .ok (),
    rmOk := true, rmErrMsg := "rmfail" }

/-- Environment whose capture stage fails. -/
def envCaptureFail : PipelineEnv :=
  { introDuration := .ok 12, capture := .error "net::ERR_NAME_NOT_RESOLVED",
    background := .ok (), overlay := .ok (), preview := .ok (),
    thumbnail := .ok (), rmOk := true, rmErrMsg := "rmfail" }

/-- Witness for `generateVSL_cleanup`: concrete failing run, the workspace
path is gone and the result survives a failing cleanup. -/
theorem generateVSL_cleanup_witness :
    ((STORAGE_temp ++ ["lead1"]) ∉ (generateVSL "lead1" envCaptureFail STORAGE_videos
        [STORAGE_temp ++ ["lead1", "old.png"]]).2)
    ∧ (generateVSL "lead1" { envCaptureFail with rmOk := false } STORAGE_videos []).1
        = .err "Failed to capture website: net::ERR_NAME_NOT_RESOLVED" := by
  constructor
  · intro hmem
    exact (generateVSL_cleanup "lead1" envCaptureFail STORAGE_videos
      [STORAGE_temp ++ ["lead1", "old.png"]] rfl).1 _ hmem (by decide)
  · exact (generateVSL_cleanup "lead1" envCaptureFail STORAGE_videos [] rfl).2
      envCaptureFail _ (by decide)


theorem tempDir_outside (leadId : String) (rest : List String) :
    ¬ (STORAGE_temp ++ [leadId]) <+: ("data" :: "videos" :: rest) := by
  rintro ⟨t, ht⟩
  simp [STORAGE_temp] at ht

/-- C9. On a fully successful `generateVSL` run the returned `backgroundPath`
is the screenshot path inside the per-lead temp workspace, which the same
call has already deleted: the path names a file that no longer exists in the
returned filesystem state, while `videoPath`, `previewPath` and
`thumbnailPath` lie outside the workspace and do exist. -/
theorem generateVSL_background_path (leadId : String) (env : PipelineEnv)
    (fs0 : Fs) (d : ℚ)
    (hi : env.introDuration = .ok d) (hc : env.capture = .ok ())
    (hb : env.background = .ok ()) (ho : env.overlay = .ok ())
    (hp : env.preview = .ok ()) (ht : env.thumbnail = .ok ())
    (hrm : env.rmOk = true) :
    (generateVSL leadId env STORAGE_videos fs0).1
      = .ok (STORAGE_videos ++ [leadId ++ ".mp4"])
          (STORAGE_previews ++ [leadId ++ "_preview.mp4"])
          (STORAGE_thumbnails ++ [leadId ++ ".jpg"])
          (STORAGE_temp ++ [leadId] ++ ["screenshot.png"])
    ∧ (STORAGE_temp ++ [leadId]) <+: (STORAGE_temp ++ [leadId] ++ ["screenshot.png"])
    ∧ (STORAGE_temp ++ [leadId] ++ ["screenshot.png"])
        ∉ (generateVSL leadId env STORAGE_videos fs0).2
    ∧ ¬ (STORAGE_temp ++ [leadId]) <+: (STORAGE_videos ++ [leadId ++ ".mp4"])
    ∧ ¬ (STORAGE_temp ++ [leadId]) <+: (STORAGE_previews ++ [leadId ++ "_preview.mp4"])
    ∧ ¬ (STORAGE_temp ++ [leadId]) <+: (STORAGE_thumbnails ++ [leadId ++ ".jpg"])
    ∧ (STORAGE_videos ++ [leadId ++ ".mp4"]) ∈ (generateVSL leadId env STORAGE_videos fs0).2
    ∧ (STORAGE_previews ++ [leadId ++ "_preview.mp4"])
        ∈ (generateVSL leadId env STORAGE_videos fs0).2
    ∧ (STORAGE_thumbnails ++ [leadId ++ ".jpg"])
        ∈ (generateVSL leadId env STORAGE_videos fs0).2 := by
  have hred : generateVSL leadId env STORAGE_videos fs0
      = (.ok (STORAGE_videos ++ [leadId ++ ".mp4"])
           (STORAGE_previews ++ [leadId ++ "_preview.mp4"])
           (STORAGE_thumbnails ++ [leadId ++ ".jpg"])
           (STORAGE_temp ++ [leadId] ++ ["screenshot.png"]),
         rmrf (STORAGE_temp ++ [leadId])
           ((STORAGE_thumbnails ++ [leadId ++ ".jpg"])
             :: (STORAGE_previews ++ [leadId ++ "_preview.mp4"])
             :: (STORAGE_videos ++ [leadId ++ ".mp4"])
             :: (STORAGE_temp ++ [leadId] ++ ["background.mp4"])
             :: (STORAGE_temp ++ [leadId] ++ ["screenshot.png"])
             :: (STORAGE_temp ++ [leadId]) :: fs0)) := by
    unfold generateVSL
    rw [hi, hc, hb, ho, hp, ht, hrm]
    rfl
  have hpre : (STORAGE_temp ++ [leadId]) <+: (STORAGE_temp ++ [leadId] ++ ["screenshot.png"]) :=
    ⟨["screenshot.png"], rfl⟩
  refine ⟨by rw [hred], hpre, ?_, tempDir_outside leadId _, tempDir_outside leadId _,
    tempDir_outside leadId _, ?_, ?_, ?_⟩
  · rw [hred]
    intro hmem
    exact mem_rmrf_not_under hmem hpre
  · rw [hred]
    exact mem_rmrf_of_mem (by simp) (tempDir_outside leadId _)
  · rw [hred]
    exact mem_rmrf_of_mem (by simp) (tempDir_outside leadId _)
  · rw [hred]
    exact mem_rmrf_of_mem (by simp) (tempDir_outside leadId _)

/-- Witness for `generateVSL_background_path` at `leadId = "lead1"`, all
stages succeeding. -/
theorem generateVSL_background_path_witness :
    (generateVSL "lead1" envOk STORAGE_videos []).1
      = .ok (STORAGE_videos ++ ["lead1" ++ ".mp4"])
          (STORAGE_previews ++ ["lead1" ++ "_preview.mp4"])
          (STORAGE_thumbnails ++ ["lead1" ++ ".jpg"])
          (STORAGE_temp ++ ["lead1"] ++ ["screenshot.png"])
    ∧ (STORAGE_temp ++ ["lead1"] ++ ["screenshot.png"])
        ∉ (generateVSL "lead1" envOk STORAGE_videos []).2 :=
  ⟨(generateVSL_background_path "lead1" envOk [] 12 rfl rfl rfl rfl rfl rfl rfl).1,
   (generateVSL_background_path "lead1" envOk [] 12 rfl rfl rfl rfl rfl rfl rfl).2.2.1⟩

/-! ## Retention sweeper (`cleanup.js`)

`cleanupExpiredVideos` (lines 21-73) selects rows with a non-null, passed
`expires_at`, and for each deletes the record's files, the
`generated_videos` row and — when present — the associated `leads` row.
`cleanupStorageLimit` (lines 130-199) fires only above the storage cap and
walks the oldest 50 completed rows, deleting files, row and lead for each
until the freed estimate (5MB per record, target 120% of the excess) is
reached. File deletion is `deleteVideoFiles` of `storage.js:436-453`
(per-path unlink, errors swallowed). -/

structure StoredVideo where
  id : ℕ
  lead_id : Option String
  video_path : Option FsPath
  preview_path : Option FsPath
  thumbnail_path : Option FsPath
  background_path : Option FsPath
  unique_slug : String
  created_at : ℕ
  expires_at : Option ℕ
  status : VideoStatus
deriving DecidableEq

structure LeadRow where
  id : String
deriving DecidableEq

structure Db where
  videos : List StoredVideo
  leads : List LeadRow
deriving DecidableEq

/-- `deleteFile` (`storage.js:420-431`): unlink one path if set. -/
def deleteFile (p : Option FsPath) (fs : Fs) : Fs :=
  match p with
  | none => fs
  | some q => fs.filter (fun x => decide (x ≠ q))

/-- `deleteVideoFiles` (`storage.js:436-453`). -/
def deleteVideoFiles (v : StoredVideo) (fs : Fs) : Fs :=
  deleteFile v.background_path
    (deleteFile v.thumbnail_path (deleteFile v.preview_path (deleteFile v.video_path fs)))

/-- The non-null paths of a record. -/
def recordPaths (v : StoredVideo) : List FsPath :=
  v.video_path.toList ++ v.preview_path.toList
    ++ v.thumbnail_path.toList ++ v.background_path.toList

/-- `expires_at IS NOT NULL AND expires_at < NOW()` (`cleanup.js:29`). -/
def isExpired (now : ℕ) (v : StoredVideo) : Bool :=
  match v.expires_at with
  | none => false
  | some e => decide (e < now)

/-- The per-record deletion body shared by both sweepers
(`cleanup.js:44-57` and `169-182`): delete files, delete the
`generated_videos` row by id, delete the associated lead row if any. -/
def cleanupStep (st : Db × Fs) (v : StoredVideo) : Db × Fs :=
  (⟨st.1.videos.filter (fun w => decide (w.id ≠ v.id)),
    match v.lead_id with
    | none => st.1.leads
    | some x => st.1.leads.filter (fun w => decide (w.id ≠ x))⟩,
   deleteVideoFiles v st.2)

/-- `cleanupExpiredVideos` (`cleanup.js:21-73`): process every expired row.
Returns the new store/filesystem and the list of processed records. -/
def cleanupExpiredVideos (now : ℕ) (db : Db) (fs : Fs) :
    Db × Fs × List StoredVideo :=
  let expired := db.videos.filter (isExpired now)
  let st := expired.foldl cleanupStep (db, fs)
  (st.1, st.2, expired)

/-- `MAX_STORAGE_MB` (`storage.js:330`, default). -/
def MAX_STORAGE_MB : ℚ := 5120

/-- The 5MB-per-record freed-space estimate of `cleanup.js:174`. -/
def BYTES_PER_DELETED_VIDEO : ℚ := 5 * 1024 * 1024

/-- The deletion loop of `cleanup.js:164-189`: stop once the freed estimate
reaches the target, else delete the record and continue. -/
def storageLoop : List StoredVideo → ℚ → ℚ → Db × Fs → (Db × Fs) × List StoredVideo
  | [], _, _, st => (st, [])
  | v :: rest, freed, target, st =>
      if target ≤ freed then (st, [])
      else
        let out := storageLoop rest (freed + BYTES_PER_DELETED_VIDEO) target (cleanupStep st v)
        (out.1, v :: out.2)

/-- `cleanupStorageLimit` (`cleanup.js:130-199`): nothing to do within the
cap; otherwise walk the oldest 50 completed rows with the deletion loop,
targeting 120% of the excess. -/
def cleanupStorageLimit (db : Db) (fs : Fs) (totalStorageMB : ℚ) :
    (Db × Fs) × List StoredVideo :=
  if totalStorageMB ≤ MAX_STORAGE_MB then ((db, fs), [])
  else
    storageLoop
      (((db.videos.filter (fun v => decide (v.status = .completed))).insertionSort
          (fun a b => a.created_at ≤ b.created_at)).take 50)
      0 ((totalStorageMB - MAX_STORAGE_MB) * 1024 * 1024 * (12 / 10)) (db, fs)

theorem deleteFile_subset (p : Option FsPath) (fs : Fs) : deleteFile p fs ⊆ fs := by
  cases p with
  | none => exact fun q hq => hq
  | some q => exact List.filter_subset' _

theorem deleteVideoFiles_subset (v : StoredVideo) (fs : Fs) :
    deleteVideoFiles v fs ⊆ fs :=
  fun q hq =>
    deleteFile_subset _ _ (deleteFile_subset _ _ (deleteFile_subset _ _
      (deleteFile_subset _ _ hq)))

theorem not_mem_deleteFile_self (q : FsPath) (fs : Fs) :
    q ∉ deleteFile (some q) fs := by
  intro hq
  have := (List.mem_filter.mp hq).2
  simp at this

theorem not_mem_deleteVideoFiles (v : StoredVideo) (fs : Fs) (q : FsPath)
    (hq : q ∈ recordPaths v) : q ∉ deleteVideoFiles v fs := by
  have hsplit : v.video_path = some q ∨ v.preview_path = some q
      ∨ v.thumbnail_path = some q ∨ v.background_path = some q := by
    simpa [recordPaths, List.mem_append, Option.mem_toList, Option.mem_def,
      or_assoc] using hq
  unfold deleteVideoFiles
  rcases hsplit with h | h | h | h
  · rw [h]
    intro hmem
    exact not_mem_deleteFile_self q _
      (deleteFile_subset _ _ (deleteFile_subset _ _ (deleteFile_subset _ _ hmem)))
  · rw [h]
    intro hmem
    exact not_mem_deleteFile_self q _
      (deleteFile_subset _ _ (deleteFile_subset _ _ hmem))
  · rw [h]
    intro hmem
    exact not_mem_deleteFile_self q _ (deleteFile_subset _ _ hmem)
  · rw [h]
    intro hmem
    exact not_mem_deleteFile_self q _ hmem

theorem cleanupStep_videos_subset (st : Db × Fs) (v : StoredVideo) :
    (cleanupStep st v).1.videos ⊆ st.1.videos := List.filter_subset' _

theorem cleanupStep_leads_subset (st : Db × Fs) (v : StoredVideo) :
    (cleanupStep st v).1.leads ⊆ st.1.leads := by
  show (match v.lead_id with
        | none => st.1.leads
        | some x => st.1.leads.filter (fun w => decide (w.id ≠ x))) ⊆ st.1.leads
  cases v.lead_id with
  | none => exact fun a ha => ha
  | some x => exact List.filter_subset' _

theorem cleanupStep_fs_subset (st : Db × Fs) (v : StoredVideo) :
    (cleanupStep st v).2 ⊆ st.2 := deleteVideoFiles_subset v st.2

theorem foldl_cleanup_videos_subset (l : List StoredVideo) :
    ∀ st : Db × Fs, (l.foldl cleanupStep st).1.videos ⊆ st.1.videos := by
  induction l with
  | nil => exact fun st a ha => ha
  | cons v rest ih =>
      intro st a ha
      exact cleanupStep_videos_subset st v (ih (cleanupStep st v) ha)

theorem foldl_cleanup_leads_subset (l : List StoredVideo) :
    ∀ st : Db × Fs, (l.foldl cleanupStep st).1.leads ⊆ st.1.leads := by
  induction l with
  | nil => exact fun st a ha => ha
  | cons v rest ih =>
      intro st a ha
      exact cleanupStep_leads_subset st v (ih (cleanupStep st v) ha)

theorem foldl_cleanup_fs_subset (l : List StoredVideo) :
    ∀ st : Db × Fs, (l.foldl cleanupStep st).2 ⊆ st.2 := by
  induction l with
  | nil => exact fun st a ha => ha
  | cons v rest ih =>
      intro st a ha
      exact cleanupStep_fs_subset st v (ih (cleanupStep st v) ha)

theorem cleanupStep_removes (st : Db × Fs) (v : StoredVideo) :
    (∀ w ∈ (cleanupStep st v).1.videos, w.id ≠ v.id)
    ∧ (∀ x, v.lead_id = some x → ∀ w ∈ (cleanupStep st v).1.leads, w.id ≠ x)
    ∧ (∀ q ∈ recordPaths v, q ∉ (cleanupStep st v).2) := by
  refine ⟨?_, ?_, ?_⟩
  · intro w hw
    have := (List.mem_filter.mp hw).2
    simpa using this
  · intro x hx w hw
    have hw2 : w ∈ st.1.leads.filter (fun w => decide (w.id ≠ x)) := by
      have : (cleanupStep st v).1.leads
          = st.1.leads.filter (fun w => decide (w.id ≠ x)) := by
        show (match v.lead_id with
              | none => st.1.leads
              | some y => st.1.leads.filter (fun w => decide (w.id ≠ y))) = _
        rw [hx]
      rw [← this]
      exact hw
    have := (List.mem_filter.mp hw2).2
    simpa using this
  · intro q hq
    exact not_mem_deleteVideoFiles v st.2 q hq

theorem cleanup_processed_removed (l2 : List StoredVideo) (st : Db × Fs)
    (v : StoredVideo) :
    (∀ w ∈ (l2.foldl cleanupStep (cleanupStep st v)).1.videos, w.id ≠ v.id)
    ∧ (∀ x, v.lead_id = some x →
        ∀ w ∈ (l2.foldl cleanupStep (cleanupStep st v)).1.leads, w.id ≠ x)
    ∧ (∀ q ∈ recordPaths v, q ∉ (l2.foldl cleanupStep (cleanupStep st v)).2) := by
  obtain ⟨h1, h2, h3⟩ := cleanupStep_removes st v
  refine ⟨?_, ?_, ?_⟩
  · intro w hw
    exact h1 w (foldl_cleanup_videos_subset l2 (cleanupStep st v) hw)
  · intro x hx w hw
    exact h2 x hx w (foldl_cleanup_leads_subset l2 (cleanupStep st v) hw)
  · intro q hq hmem
    exact h3 q hq (foldl_cleanup_fs_subset l2 (cleanupStep st v) hmem)


theorem storageLoop_cons (w : StoredVideo) (rest : List StoredVideo)
    (freed target : ℚ) (st : Db × Fs) :
    storageLoop (w :: rest) freed target st
      = if target ≤ freed then (st, [])
        else ((storageLoop rest (freed + BYTES_PER_DELETED_VIDEO) target (cleanupStep st w)).1,
              w :: (storageLoop rest (freed + BYTES_PER_DELETED_VIDEO) target (cleanupStep st w)).2) := rfl

theorem storageLoop_videos_subset (l : List StoredVideo) :
    ∀ (freed target : ℚ) (st : Db × Fs),
      ((storageLoop l freed target st).1).1.videos ⊆ st.1.videos := by
  induction l with
  | nil => intro freed target st a ha; exact ha
  | cons w rest ih =>
      intro freed target st a ha
      rw [storageLoop_cons] at ha
      by_cases hstop : target ≤ freed
      · rw [if_pos hstop] at ha
        exact ha
      · rw [if_neg hstop] at ha
        exact cleanupStep_videos_subset st w
          (ih (freed + BYTES_PER_DELETED_VIDEO) target (cleanupStep st w) ha)

theorem storageLoop_leads_subset (l : List StoredVideo) :
    ∀ (freed target : ℚ) (st : Db × Fs),
      ((storageLoop l freed target st).1).1.leads ⊆ st.1.leads := by
  induction l with
  | nil => intro freed target st a ha; exact ha
  | cons w rest ih =>
      intro freed target st a ha
      rw [storageLoop_cons] at ha
      by_cases hstop : target ≤ freed
      · rw [if_pos hstop] at ha
        exact ha
      · rw [if_neg hstop] at ha
        exact cleanupStep_leads_subset st w
          (ih (freed + BYTES_PER_DELETED_VIDEO) target (cleanupStep st w) ha)

theorem storageLoop_fs_subset (l : List StoredVideo) :
    ∀ (freed target : ℚ) (st : Db × Fs),
      ((storageLoop l freed target st).1).2 ⊆ st.2 := by
  induction l with
  | nil => intro freed target st a ha; exact ha
  | cons w rest ih =>
      intro freed target st a ha
      rw [storageLoop_cons] at ha
      by_cases hstop : target ≤ freed
      · rw [if_pos hstop] at ha
        exact ha
      · rw [if_neg hstop] at ha
        exact cleanupStep_fs_subset st w
          (ih (freed + BYTES_PER_DELETED_VIDEO) target (cleanupStep st w) ha)

theorem storageLoop_deleted (l : List StoredVideo) :
    ∀ (freed target : ℚ) (st : Db × Fs), ∀ v ∈ (storageLoop l freed target st).2,
      v ∈ l
      ∧ (∀ w ∈ ((storageLoop l freed target st).1).1.videos, w.id ≠ v.id)
      ∧ (∀ x, v.lead_id = some x →
          ∀ w ∈ ((storageLoop l freed target st).1).1.leads, w.id ≠ x)
      ∧ (∀ q ∈ recordPaths v, q ∉ ((storageLoop l freed target st).1).2) := by
  induction l with
  | nil => intro freed target st v hv; exact absurd hv (List.not_mem_nil v)
  | cons w rest ih =>
      intro freed target st v hv
      by_cases hstop : target ≤ freed
      · rw [storageLoop_cons, if_pos hstop] at hv
        exact absurd hv (List.not_mem_nil v)
      · rw [storageLoop_cons, if_neg hstop] at hv ⊢
        rcases List.mem_cons.mp hv with heq | hrec
        · subst heq
          obtain ⟨h1, h2, h3⟩ := cleanupStep_removes st v
          refine ⟨List.mem_cons_self v rest, ?_, ?_, ?_⟩
          · intro w2 hw2
            exact h1 w2 (storageLoop_videos_subset rest _ target (cleanupStep st v) hw2)
          · intro x hx w2 hw2
            exact h2 x hx w2 (storageLoop_leads_subset rest _ target (cleanupStep st v) hw2)
          · intro q hq hmem
            exact h3 q hq (storageLoop_fs_subset rest _ target (cleanupStep st v) hmem)
        · obtain ⟨hmem, h1, h2, h3⟩ :=
            ih (freed + BYTES_PER_DELETED_VIDEO) target (cleanupStep st w) v hrec
          exact ⟨List.mem_cons_of_mem w hmem, h1, h2, h3⟩

/-- C10. For every record it removes, the retention sweeper deletes the
`generated_videos` row, the record's files and the associated `leads` row:
`cleanupExpiredVideos` does so for every record whose expiry timestamp has
passed, and `cleanupStorageLimit` — a no-op within the storage cap — does so
for each of the oldest completed records its loop removes. -/
theorem cleanup_deletes_lead_rows (now : ℕ) (db : Db) (fs : Fs) (totalMB : ℚ) :
    (∀ v ∈ db.videos, isExpired now v = true →
      (∀ w ∈ (cleanupExpiredVideos now db fs).1.videos, w.id ≠ v.id)
      ∧ (∀ x, v.lead_id = some x →
          ∀ w ∈ (cleanupExpiredVideos now db fs).1.leads, w.id ≠ x)
      ∧ (∀ q ∈ recordPaths v, q ∉ (cleanupExpiredVideos now db fs).2.1))
    ∧ (∀ v ∈ (cleanupStorageLimit db fs totalMB).2,
        v ∈ db.videos ∧ v.status = .completed
        ∧ (∀ w ∈ ((cleanupStorageLimit db fs totalMB).1).1.videos, w.id ≠ v.id)
        ∧ (∀ x, v.lead_id = some x →
            ∀ w ∈ ((cleanupStorageLimit db fs totalMB).1).1.leads, w.id ≠ x)
        ∧ (∀ q ∈ recordPaths v, q ∉ ((cleanupStorageLimit db fs totalMB).1).2))
    ∧ (totalMB ≤ MAX_STORAGE_MB → cleanupStorageLimit db fs totalMB = ((db, fs), [])) := by
  refine ⟨?_, ?_, ?_⟩
  · intro v hv hexp
    obtain ⟨l1, l2, hsplit⟩ :=
      List.append_of_mem (List.mem_filter.mpr ⟨hv, hexp⟩)
    have h1 : (cleanupExpiredVideos now db fs).1
        = ((db.videos.filter (isExpired now)).foldl cleanupStep (db, fs)).1 := rfl
    have h2 : (cleanupExpiredVideos now db fs).2.1
        = ((db.videos.filter (isExpired now)).foldl cleanupStep (db, fs)).2 := rfl
    rw [h1, h2, hsplit, List.foldl_append, List.foldl_cons]
    exact cleanup_processed_removed l2 (l1.foldl cleanupStep (db, fs)) v
  · intro v hv
    unfold cleanupStorageLimit at hv ⊢
    by_cases hcap : totalMB ≤ MAX_STORAGE_MB
    · rw [if_pos hcap] at hv
      exact absurd hv (List.not_mem_nil v)
    · rw [if_neg hcap] at hv ⊢
      obtain ⟨hmem, hp1, hp2, hp3⟩ := storageLoop_deleted _ 0 _ (db, fs) v hv
      have hsorted : v ∈ (db.videos.filter (fun v => decide (v.status = .completed))).insertionSort
          (fun a b => a.created_at ≤ b.created_at) := List.take_subset 50 _ hmem
      have hfiltered : v ∈ db.videos.filter (fun v => decide (v.status = .completed)) :=
        (List.perm_insertionSort (fun a b => a.created_at ≤ b.created_at) _).subset hsorted
      have hvdb := (List.mem_filter.mp hfiltered).1
      have hvst : v.status = .completed := by
        have := (List.mem_filter.mp hfiltered).2
        simpa using this
      exact ⟨hvdb, hvst, hp1, hp2, hp3⟩
  · intro hcap
    unfold cleanupStorageLimit
    rw [if_pos hcap]

def expiredVid : StoredVideo :=
  { id := 1, lead_id := some "lead1", video_path := some ["data", "videos", "l1.mp4"],
    preview_path := none, thumbnail_path := none, background_path := none,
    unique_slug := "slug", created_at := 10, expires_at := some 50,
    status := VideoStatus.completed }

def dbW : Db := ⟨[expiredVid], [⟨"lead1"⟩]⟩

/-- Witness for `cleanup_deletes_lead_rows`: one expired record whose row and
lead row are both removed. -/
theorem cleanup_deletes_lead_rows_witness :
    (∀ w ∈ (cleanupExpiredVideos 100 dbW []).1.videos, w.id ≠ expiredVid.id)
    ∧ (∀ x, expiredVid.lead_id = some x →
        ∀ w ∈ (cleanupExpiredVideos 100 dbW []).1.leads, w.id ≠ x) := by
  obtain ⟨h1, h2, _⟩ :=
    (cleanup_deletes_lead_rows 100 dbW [] 0).1 expiredVid (by decide) (by decide)
  exact ⟨h1, h2⟩

end VSL
